import Mathlib

/-!
Verification of the networked simulation model core
(`NetworkSimulationModel.h`, class `TNetworkedSimulationModel`).

The header under verification contains the orchestrator: the `Tick` body
(input consumption and simulation update), the replication-target dispatch,
the dependent-simulation linkage, and the ServerRPC pacing helper.  The
supporting types (the keyframed ring buffer `TReplicationBuffer`, the tick
state `TSimulationTickState`, and the replication proxies) live in sibling
headers that are not part of the tree; where the theorems below need them
they are modelled from the specification, as marked on each definition.

Numeric conventions: keyframes are modelled as `Int` (the source uses
`int32`; an empty buffer reports head keyframe `-1`), simulation time
(`FNetworkSimTime`, a fixed-point integer duration) as `Int`, and the
real-time seconds of the RPC pacer as `ℚ` (exact arithmetic standing in
for `float`; the properties at issue are algebraic, not rounding).
-/

namespace NetSim

/-- Modelled from the spec (§4.A Keyframed Ring Buffer) and the buffer use
in `NetworkSimulationModel.h`: `TReplicationBuffer` is not in the tree.
`elems` holds the retained `(keyframe, value)` pairs, newest first;
`nextWrite` is the keyframe the next `getWriteNext` will occupy, so the
head keyframe of a fresh buffer is `-1`. -/
structure NSimBuffer (α : Type) where
  capacity : Nat
  nextWrite : Int
  elems : List (Int × α)
deriving DecidableEq

/-- A fresh buffer of the given capacity (`SetBufferSize` on an empty buffer). -/
def NSimBuffer.empty (α : Type) (cap : Nat) : NSimBuffer α :=
  ⟨cap, 0, []⟩

/-- `GetHeadKeyframe`: keyframe of the most recently written element
(`-1` when nothing has been written). -/
def NSimBuffer.getHeadKeyframe {α : Type} (b : NSimBuffer α) : Int :=
  b.nextWrite - 1

/-- `FindElementByKeyframe`: the element with keyframe `k`, or `none` if it
is outside the retained window. -/
def NSimBuffer.findElementByKeyframe {α : Type} (b : NSimBuffer α) (k : Int) : Option α :=
  (b.elems.find? (fun e => e.1 == k)).map (fun e => e.2)

/-- `GetWriteNext` fused with the write through the returned reference:
allocates the next keyframe, evicting the tail when the buffer is full. -/
def NSimBuffer.writeNext {α : Type} (b : NSimBuffer α) (v : α) : NSimBuffer α :=
  { b with
    nextWrite := b.nextWrite + 1
    elems := ((b.nextWrite, v) :: b.elems).take b.capacity }

/-- `ResetNextHeadKeyframe(k)`: re-seeds the buffer so that the next
`writeNext` produces keyframe `k`, discarding entries at keyframes `≥ k`.
(The spec's §4.A words this with an off-by-one — "next write produces
`k+1`" — but the `Tick` source requires the seed written right after
`ResetNextHeadKeyframe(LastProcessedInputKeyframe)` to land at keyframe
`LastProcessedInputKeyframe` itself, per the comment block at lines
138-149 and the `check(Buffers.Sync.GetHeadKeyframe() == Keyframe)` in the
input loop; the source's reading is used.) -/
def NSimBuffer.resetNextHeadKeyframe {α : Type} (b : NSimBuffer α) (k : Int) : NSimBuffer α :=
  { b with
    nextWrite := k
    elems := b.elems.filter (fun e => decide (e.1 < k)) }

/-! ## ServerRPC pacing (`SetDesiredServerRPCSendFrequency` / `ShouldSendServerRPC`) -/

/-- The two private pacing fields of `TNetworkedSimulationModel`
(`ServerRPCAccumulatedTimeSeconds`, `ServerRPCThresholdTimeSeconds`). -/
structure ServerRPCPacing where
  serverRPCAccumulatedTimeSeconds : ℚ
  serverRPCThresholdTimeSeconds : ℚ
deriving DecidableEq

/-- `SetDesiredServerRPCSendFrequency(DesiredHz)`: threshold := `1/hz`. -/
def setDesiredServerRPCSendFrequency (desiredHz : ℚ) (st : ServerRPCPacing) : ServerRPCPacing :=
  { st with serverRPCThresholdTimeSeconds := 1 / desiredHz }

/-- `ShouldSendServerRPC(DeltaTimeSeconds)`, exactly as written in the
source: `CappedDeltaTimeSeconds` is computed but the un-capped
`DeltaTimeSeconds` is what is added to the accumulator. -/
def shouldSendServerRPC (deltaTimeSeconds : ℚ) (st : ServerRPCPacing) :
    Bool × ServerRPCPacing :=
  let cappedDeltaTimeSeconds :=
    min deltaTimeSeconds st.serverRPCThresholdTimeSeconds
  let acc := st.serverRPCAccumulatedTimeSeconds + deltaTimeSeconds
  if st.serverRPCThresholdTimeSeconds ≤ acc then
    (true, { st with serverRPCAccumulatedTimeSeconds := acc - st.serverRPCThresholdTimeSeconds })
  else
    (false, { st with serverRPCAccumulatedTimeSeconds := acc })

/-- Modelled from the spec: the pacing step as §4.F words it — the amount
added to the accumulator is `dt` capped per call at the threshold. Used
only to exhibit the divergence from the source's `shouldSendServerRPC`. -/
def shouldSendServerRPCSpecCapped (deltaTimeSeconds : ℚ) (st : ServerRPCPacing) :
    Bool × ServerRPCPacing :=
  let cappedDeltaTimeSeconds :=
    min deltaTimeSeconds st.serverRPCThresholdTimeSeconds
  let acc := st.serverRPCAccumulatedTimeSeconds + cappedDeltaTimeSeconds
  if st.serverRPCThresholdTimeSeconds ≤ acc then
    (true, { st with serverRPCAccumulatedTimeSeconds := acc - st.serverRPCThresholdTimeSeconds })
  else
    (false, { st with serverRPCAccumulatedTimeSeconds := acc })

/-! ## Replication-target dispatch (`NetSerializeProxy` / `GetProxyDirtyCount`) -/

/-- `EReplicationProxyTarget`. -/
inductive EReplicationProxyTarget where
  | serverRPC
  | autonomousProxy
  | simulatedProxy
  | replay
  | debug
deriving DecidableEq

/-- Outcome of the `switch(Target)` dispatch: either the named proxy handles
the call, or control reaches `default: checkf(false, TEXT("Unknown ..."))`
— an assertion failure (programming error). -/
inductive ProxyDispatch where
  | handled (target : EReplicationProxyTarget)
  | assertUnknownTarget
deriving DecidableEq

/-- `NetSerializeProxy(Target, Params)` dispatch, with `debugEnabled`
standing for the `NETSIM_MODEL_DEBUG` compile switch.  When the switch is
off the `case Debug:` label has no body and falls through to the
`default:` assertion. -/
def netSerializeProxy (debugEnabled : Bool) (target : EReplicationProxyTarget) : ProxyDispatch :=
  match target with
  | .serverRPC => .handled .serverRPC
  | .autonomousProxy => .handled .autonomousProxy
  | .simulatedProxy => .handled .simulatedProxy
  | .replay => .handled .replay
  | .debug => if debugEnabled then .handled .debug else .assertUnknownTarget

/-- `GetProxyDirtyCount(Target)` dispatch; same fall-through shape as
`netSerializeProxy` (the assertion path then returns 0). -/
def getProxyDirtyCount (debugEnabled : Bool) (target : EReplicationProxyTarget) : ProxyDispatch :=
  match target with
  | .serverRPC => .handled .serverRPC
  | .autonomousProxy => .handled .autonomousProxy
  | .simulatedProxy => .handled .simulatedProxy
  | .replay => .handled .replay
  | .debug => if debugEnabled then .handled .debug else .assertUnknownTarget

/-- `GetLocalDebugBuffer` in the `#else` (debug compiled out) configuration:
returns `nullptr`. -/
def getLocalDebugBufferDisabled (δ : Type) : Option (NSimBuffer δ) :=
  none

/-- `GetNextLocalDebugStateWrite` in the `#else` configuration. -/
def getNextLocalDebugStateWriteDisabled (δ : Type) : Option δ :=
  none

/-- `GetHistoricBuffers(bCreate)` in the `#else` configuration: returns
`nullptr` regardless of `bCreate`. -/
def getHistoricBuffersDisabled (η : Type) (bCreate : Bool) : Option η :=
  none

/-- `GetRemoteDebugBuffer` in the `#else` configuration. -/
def getRemoteDebugBufferDisabled (δ : Type) : Option (NSimBuffer δ) :=
  none

/-! ## Dependent-simulation linkage

`SetParentSimulation` / `AddDepdentSimulation` / `RemoveDependentSimulation`
/ `ClearAllDependentSimulations` / the destructor, modelled over a registry
of simulation instances identified by `Nat`.  Each instance carries the two
fields the source keeps on its proxies: `RepProxy_Simulated.ParentSimulation`
(a single optional parent pointer) and
`RepProxy_Autonomous.DependentSimulations` (a `TArray` of children:
`Add` appends, `Remove` deletes matching entries, `Contains` is membership).
-/

/-- Per-instance linkage fields. -/
structure SimNode where
  parentSimulation : Option Nat
  dependentSimulations : List Nat
deriving DecidableEq

/-- The registry: linkage fields of every simulation instance. -/
def SimGraph : Type :=
  Nat → SimNode

/-- Fresh instances: no parent, no dependents. -/
def SimGraph.init : SimGraph :=
  fun _ => ⟨none, []⟩

/-- Pointwise update of one instance's fields. -/
def SimGraph.set (g : SimGraph) (i : Nat) (n : SimNode) : SimGraph :=
  fun j => if j = i then n else g j

/-- `p->AddDepdentSimulation(s)`: `DependentSimulations.Add(s)` (the
`check(Contains == false)` is an assertion, not a guard; the append is
modelled unconditionally as in a build where `check` is compiled out). -/
def SimGraph.addDepdentSimulation (g : SimGraph) (p s : Nat) : SimGraph :=
  g.set p { g p with dependentSimulations := (g p).dependentSimulations ++ [s] }

/-- `p->RemoveDependentSimulation(s)`: `DependentSimulations.Remove(s)`. -/
def SimGraph.removeDependentSimulation (g : SimGraph) (p s : Nat) : SimGraph :=
  g.set p { g p with dependentSimulations := (g p).dependentSimulations.filter (fun d => d ≠ s) }

/-- The opening conditional of `SetParentSimulation`: if a parent is
currently linked, remove this sim from that parent's dependents. -/
def SimGraph.detachFromParent (g : SimGraph) (s : Nat) : SimGraph :=
  match (g s).parentSimulation with
  | some q => g.removeDependentSimulation q s
  | none => g

/-- `s->SetParentSimulation(newParent)`: detach from the old parent's
dependents, store the new parent link, attach to the new parent's
dependents. -/
def SimGraph.setParentSimulation (g : SimGraph) (s : Nat) (newParent : Option Nat) : SimGraph :=
  let g1 := g.detachFromParent s
  let g2 := g1.set s { g1 s with parentSimulation := newParent }
  match newParent with
  | some p => g2.addDepdentSimulation p s
  | none => g2

/-- `s->ClearAllDependentSimulations()`: move the dependents list out
(leaving it empty) and call `SetParentSimulation(nullptr)` on each former
dependent. -/
def SimGraph.clearAllDependentSimulations (g : SimGraph) (s : Nat) : SimGraph :=
  let localList := (g s).dependentSimulations
  let g1 := g.set s { g s with dependentSimulations := [] }
  localList.foldl (fun acc d => acc.setParentSimulation d none) g1

/-- `~TNetworkedSimulationModel`: `SetParentSimulation(nullptr)` then
`ClearAllDependentSimulations()`. -/
def SimGraph.destroy (g : SimGraph) (s : Nat) : SimGraph :=
  (g.setParentSimulation s none).clearAllDependentSimulations s

/-- One public linkage call, as claim C2 quantifies over them. -/
inductive GraphOp where
  | setParent (s : Nat) (p : Option Nat)
  | addDep (p s : Nat)
  | removeDep (p s : Nat)
  | clearAll (s : Nat)
  | destroy (s : Nat)
deriving DecidableEq

/-- Apply one linkage call. -/
def SimGraph.applyOp (g : SimGraph) : GraphOp → SimGraph
  | .setParent s p => g.setParentSimulation s p
  | .addDep p s => g.addDepdentSimulation p s
  | .removeDep p s => g.removeDependentSimulation p s
  | .clearAll s => g.clearAllDependentSimulations s
  | .destroy s => g.destroy s

/-- Run a sequence of linkage calls from the initial registry. -/
def SimGraph.run (ops : List GraphOp) : SimGraph :=
  ops.foldl SimGraph.applyOp SimGraph.init

/-- The linkage calls that mutate dependents lists only through
`SetParentSimulation` (directly, via `ClearAllDependentSimulations`, or via
the destructor) — the discipline under which the symmetry invariant holds. -/
def GraphOp.linkOnly : GraphOp → Prop
  | .setParent _ _ => True
  | .clearAll _ => True
  | .destroy _ => True
  | .addDep _ _ => False
  | .removeDep _ _ => False

/-- The two-way parent/dependents symmetry of claim C2: a simulation is in
another's dependents list exactly when its parent link points there. -/
def SimGraph.Symmetric (g : SimGraph) : Prop :=
  ∀ s p : Nat, s ∈ (g p).dependentSimulations ↔ (g s).parentSimulation = some p

/-- Dependents lists hold no duplicates (auxiliary invariant). -/
def SimGraph.DepsNodup (g : SimGraph) : Prop :=
  ∀ p : Nat, (g p).dependentSimulations.Nodup

/-! ## The tick engine

The `Tick` body between the role-specific `PreSimTick` and `PostSimTick`
dispatches (source lines 133-215): the continuity re-seed of the Sync
buffer and the input consumption loop.  The role proxies are external to
this header; their effect on the tick (producing inputs, refilling the
time budget, raising `MaxAllowedInputKeyframe`) appears below as the
explicit operations of `SimOp`.
-/

/-- Modelled from the spec (§4.C Tick State): `TSimulationTickState` is not
in the tree.  Simulation time is the fixed-point integer `FNetworkSimTime`,
modelled as `Int`. -/
structure TickState where
  lastProcessedInputKeyframe : Int
  maxAllowedInputKeyframe : Int
  remainingAllowedSimulationTime : Int
  totalProcessedSimulationTime : Int
  simulationTimeBuffer : NSimBuffer Int
deriving DecidableEq

/-- Tick state after `InitializeForNetworkRole`: `LastProcessedInputKeyframe`
initialized to 0 ("already processed" the keyframe-0 sentinel), the
per-keyframe simulation-time buffer sized to the Sync buffer size. -/
def TickState.init (syncedBufferSize : Nat) : TickState :=
  ⟨0, 0, 0, 0, NSimBuffer.empty Int syncedBufferSize⟩

/-- Modelled from the spec (§4.C): `IncrementTotalProcessedSimulationTime
(delta, k)` advances the total and the per-keyframe stamp at `k`, and
decrements the `RemainingAllowedSimulationTime` budget as the input
keyframe is consumed. -/
def TickState.incrementTotalProcessedSimulationTime (t : TickState) (delta k : Int) : TickState :=
  { t with
    totalProcessedSimulationTime := t.totalProcessedSimulationTime + delta
    remainingAllowedSimulationTime := t.remainingAllowedSimulationTime - delta
    simulationTimeBuffer :=
      (t.simulationTimeBuffer.resetNextHeadKeyframe k).writeNext
        (t.totalProcessedSimulationTime + delta) }

/-- Modelled from the spec (§4.C): `SetTotalProcessedSimulationTime(v, k)`,
the rollback/re-seed form — total becomes `v` and the per-keyframe stamp
buffer restarts at keyframe `k` with value `v`. -/
def TickState.setTotalProcessedSimulationTime (t : TickState) (v k : Int) : TickState :=
  { t with
    totalProcessedSimulationTime := v
    simulationTimeBuffer := (t.simulationTimeBuffer.resetNextHeadKeyframe k).writeNext v }

/-- The user-supplied pieces the orchestrator template is instantiated
with: the input command's `GetFrameDeltaTime`, the deterministic static
`TSimulation::Update` (driver argument omitted: the sim may not read
mutable driver state, and `Update` writes its result through `NextSync`),
the driver's `InitSyncState` output, the default-constructed `TAuxState()`
and `TInputCmd()`. -/
structure SimDef (ι σ ω : Type) where
  frameDeltaTime : ι → Int
  update : Int → ι → σ → ω → σ
  initSyncState : σ
  defaultAux : ω
  defaultInputCmd : ι

/-- The orchestrator state the tick engine reads and writes: the Input,
Sync and Aux buffers of `TNetworkSimBufferContainer` plus `TickInfo`. -/
structure OrchState (ι σ ω : Type) where
  input : NSimBuffer ι
  sync : NSimBuffer σ
  aux : NSimBuffer ω
  tickInfo : TickState
deriving DecidableEq

/-- One successful pass of the input consumption loop (the "core process
input command and call ::Update block", source lines 184-203): write
`Update`'s output at the next Sync keyframe, advance the processed
simulation time, and set `LastProcessedInputKeyframe` to the keyframe just
consumed.  The Aux state handed to `Update` is the freshly
default-constructed local (`TAuxState AuxState;` — the aux buffer is not
wired through). -/
def stepState {ι σ ω : Type} (P : SimDef ι σ ω) (s : OrchState ι σ ω)
    (nextCmd : ι) (prevSyncState : σ) : OrchState ι σ ω :=
  let keyframe := s.tickInfo.lastProcessedInputKeyframe + 1
  let nextSyncState :=
    P.update (P.frameDeltaTime nextCmd) nextCmd prevSyncState P.defaultAux
  let tick1 :=
    s.tickInfo.incrementTotalProcessedSimulationTime (P.frameDeltaTime nextCmd) keyframe
  { s with
    sync := s.sync.writeNext nextSyncState
    tickInfo := { tick1 with lastProcessedInputKeyframe := keyframe } }

/-- The `while(true)` input consumption loop (source lines 171-214).  Each
pass processes keyframe `LastProcessedInputKeyframe + 1` or breaks: past
`MaxAllowedInputKeyframe`, on a keyframe missing from the Input buffer, or
on an exhausted time budget.  `fuel` bounds the iteration count; the
caller passes `MaxAllowedInputKeyframe - LastProcessedInputKeyframe`,
which the `Keyframe > MaxAllowedInputKeyframe` break makes exact.  The
`check(PrevSyncState != nullptr)` assertion is modelled as a loop exit
(it is unreachable from states the continuity step has re-seeded).
Returns the final state and the processed keyframes in order (the set the
source records into `DebugState->ProcessedKeyframes`). -/
def inputLoop {ι σ ω : Type} (P : SimDef ι σ ω) :
    Nat → OrchState ι σ ω → OrchState ι σ ω × List Int
  | 0, s => (s, [])
  | fuel + 1, s =>
    let keyframe := s.tickInfo.lastProcessedInputKeyframe + 1
    if keyframe > s.tickInfo.maxAllowedInputKeyframe then
      (s, [])
    else
      match s.input.findElementByKeyframe keyframe with
      | none => (s, [])
      | some nextCmd =>
        if P.frameDeltaTime nextCmd ≤ s.tickInfo.remainingAllowedSimulationTime then
          match s.sync.findElementByKeyframe s.tickInfo.lastProcessedInputKeyframe with
          | none => (s, [])
          | some prevSyncState =>
            let r := inputLoop P fuel (stepState P s nextCmd prevSyncState)
            (r.1, keyframe :: r.2)
        else
          (s, [])

/-- The `Tick` core (source lines 136-215): if there is unprocessed input
(`Input.head > Sync.head`), re-seed the Sync buffer on a continuity break
and run the input consumption loop.  Returns the new state, the processed
keyframes, and whether the continuity-break warning was logged. -/
def tickCore {ι σ ω : Type} (P : SimDef ι σ ω) (s : OrchState ι σ ω) :
    OrchState ι σ ω × List Int × Bool :=
  if s.input.getHeadKeyframe > s.sync.getHeadKeyframe then
    let seeded :=
      if s.sync.getHeadKeyframe ≠ s.tickInfo.lastProcessedInputKeyframe then
        let warned := s.tickInfo.lastProcessedInputKeyframe ≠ 0
        let sync1 :=
          (s.sync.resetNextHeadKeyframe s.tickInfo.lastProcessedInputKeyframe).writeNext
            P.initSyncState
        let tick1 :=
          s.tickInfo.setTotalProcessedSimulationTime
            s.tickInfo.totalProcessedSimulationTime sync1.getHeadKeyframe
        (({ s with sync := sync1, tickInfo := tick1 } : OrchState ι σ ω), decide warned)
      else
        (s, false)
    let fuel :=
      (seeded.1.tickInfo.maxAllowedInputKeyframe
        - seeded.1.tickInfo.lastProcessedInputKeyframe).toNat
    let r := inputLoop P fuel seeded.1
    (r.1, r.2, seeded.2)
  else
    (s, [], false)

/-- The state the continuity-break branch of `Tick` hands to the input
consumption loop: Sync re-seeded at `LastProcessedInputKeyframe` with the
driver's `InitSyncState` output, and the per-keyframe simulation-time
stamp restarted there (total unchanged). -/
def recoveredState {ι σ ω : Type} (P : SimDef ι σ ω) (s : OrchState ι σ ω) : OrchState ι σ ω :=
  let sync1 :=
    (s.sync.resetNextHeadKeyframe s.tickInfo.lastProcessedInputKeyframe).writeNext
      P.initSyncState
  { s with
    sync := sync1
    tickInfo :=
      s.tickInfo.setTotalProcessedSimulationTime
        s.tickInfo.totalProcessedSimulationTime sync1.getHeadKeyframe }

/-- One step of the orchestrator's tick-path evolution.  `produceInput` is
the autonomous `PreSimTick` writing a driver-produced command at the next
input keyframe; `setRemainingAllowedSimulationTime` and
`setMaxAllowedInputKeyframe` are the proxies' budget refill and input
rate-limit; `tick` is the engine core. -/
inductive SimOp (ι : Type) where
  | produceInput (cmd : ι)
  | setRemainingAllowedSimulationTime (t : Int)
  | setMaxAllowedInputKeyframe (k : Int)
  | tick
deriving DecidableEq

/-- Apply one `SimOp`. -/
def applySimOp {ι σ ω : Type} (P : SimDef ι σ ω) (s : OrchState ι σ ω) :
    SimOp ι → OrchState ι σ ω
  | .produceInput cmd => { s with input := s.input.writeNext cmd }
  | .setRemainingAllowedSimulationTime t =>
    { s with tickInfo := { s.tickInfo with remainingAllowedSimulationTime := t } }
  | .setMaxAllowedInputKeyframe k =>
    { s with tickInfo := { s.tickInfo with maxAllowedInputKeyframe := k } }
  | .tick => (tickCore P s).1

/-- `InitializeForNetworkRole`: size the buffers, then seed the Input
buffer with the empty keyframe-0 sentinel command. -/
def initializeForNetworkRole {ι σ ω : Type} (P : SimDef ι σ ω)
    (inputBufferSize syncedBufferSize auxBufferSize : Nat) : OrchState ι σ ω :=
  { input := (NSimBuffer.empty ι inputBufferSize).writeNext P.defaultInputCmd
    sync := NSimBuffer.empty σ syncedBufferSize
    aux := NSimBuffer.empty ω auxBufferSize
    tickInfo := TickState.init syncedBufferSize }

/-- Run a sequence of `SimOp`s from an initialized orchestrator. -/
def runSimOps {ι σ ω : Type} (P : SimDef ι σ ω) (s : OrchState ι σ ω)
    (ops : List (SimOp ι)) : OrchState ι σ ω :=
  ops.foldl (applySimOp P) s

/-- The input-command history of an op sequence: the commands produced, in
order.  The `i`-th produced command (0-based) occupies input keyframe
`i + 1` (keyframe 0 is the sentinel). -/
def histInputs {ι : Type} (ops : List (SimOp ι)) : List ι :=
  ops.filterMap (fun op => match op with
    | .produceInput cmd => some cmd
    | _ => none)

/-- Total frame delta time of a list of input commands. -/
def sumFrameDelta {ι σ ω : Type} (P : SimDef ι σ ω) (cmds : List ι) : Int :=
  (cmds.map P.frameDeltaTime).sum

/-- The Sync state a run deterministically reaches after consuming the
given commands in order, starting from the driver seed. -/
def syncAfter {ι σ ω : Type} (P : SimDef ι σ ω) (cmds : List ι) : σ :=
  cmds.foldl (fun st c => P.update (P.frameDeltaTime c) c st P.defaultAux) P.initSyncState

/-- The consecutive keyframes `a, a+1, ..., a+n-1`. -/
def consecFrom (a : Int) (n : Nat) : List Int :=
  (List.range n).map (fun i : Nat => a + (i : Int))

/-- Invariant of every orchestrator state reachable along the tick path
from `initializeForNetworkRole`, relative to the history `hist` of
produced input commands (the `i`-th command of `hist`, 0-based, occupies
input keyframe `i + 1`; keyframe 0 is the sentinel).  It ties the Input
buffer to the history, every retained Sync element to the deterministic
fold of `Update` over the history prefix, and the total processed
simulation time to the frame deltas of the consumed prefix. -/
structure ReachInv {ι σ ω : Type} (P : SimDef ι σ ω) (hist : List ι)
    (s : OrchState ι σ ω) : Prop where
  lpk_nonneg : 0 ≤ s.tickInfo.lastProcessedInputKeyframe
  lpk_le : s.tickInfo.lastProcessedInputKeyframe ≤ hist.length
  input_next : s.input.nextWrite = hist.length + 1
  input_mem : ∀ k : Int, ∀ c : ι, (k, c) ∈ s.input.elems → 1 ≤ k →
    k ≤ hist.length ∧ hist.getD (k - 1).toNat P.defaultInputCmd = c
  sync_mem : ∀ k : Int, ∀ y : σ, (k, y) ∈ s.sync.elems →
    0 ≤ k ∧ k ≤ s.tickInfo.lastProcessedInputKeyframe
      ∧ y = syncAfter P (hist.take k.toNat)
  total_eq : s.tickInfo.totalProcessedSimulationTime
    = sumFrameDelta P (hist.take s.tickInfo.lastProcessedInputKeyframe.toNat)
  sync_head : s.sync.getHeadKeyframe = s.tickInfo.lastProcessedInputKeyframe
    ∨ (s.sync.nextWrite = 0 ∧ s.sync.elems = []
        ∧ s.tickInfo.lastProcessedInputKeyframe = 0)

/-- `P` with `Update` replaced by a version that ignores the Aux argument
it is handed and always reads the default-constructed Aux state instead.
`tickCore` is invariant under this replacement (claim C8): every `Update`
invocation it makes already receives the default-constructed value. -/
def withAuxAlwaysDefault {ι σ ω : Type} (P : SimDef ι σ ω) : SimDef ι σ ω :=
  { P with update := fun dt cmd prev _a => P.update dt cmd prev P.defaultAux }

/-! ## Concrete instantiation used by the witnesses

A small integer simulation: a command is its own frame delta time, the
sync state accumulates `prev + cmd + aux`, the driver seeds 100. -/

/-- Witness simulation definition. -/
def intSim : SimDef Int Int Int :=
  { frameDeltaTime := fun c => c
    update := fun _dt c prev auxv => prev + c + auxv
    initSyncState := 100
    defaultAux := 0
    defaultInputCmd := 0 }

/-- Witness orchestrator, freshly initialized with all buffers at size 8. -/
def intSimInit : OrchState Int Int Int :=
  initializeForNetworkRole intSim 8 8 8

/-- A state whose Input buffer holds keyframes 1 and 3 but not 2 (the gap
scenario of claim C5). -/
def gapState : OrchState Int Int Int :=
  { input := ⟨8, 4, [(3, 7), (1, 5), (0, 0)]⟩
    sync := ⟨8, 1, [(0, 100)]⟩
    aux := NSimBuffer.empty Int 8
    tickInfo := ⟨0, 10, 100, 0, NSimBuffer.empty Int 8⟩ }

/-- A continuity-break state: `LastProcessedInputKeyframe = 5` while the
Sync head is 0 (the scenario of claim C3 and spec §8 scenario 3). -/
def breakState : OrchState Int Int Int :=
  { input := ⟨8, 8, [(7, 2), (6, 1), (0, 0)]⟩
    sync := ⟨8, 1, [(0, 100)]⟩
    aux := NSimBuffer.empty Int 8
    tickInfo := ⟨5, 10, 100, 40, NSimBuffer.empty Int 8⟩ }

/-- A budget-clamp state: Input keyframe 1 carries `dt = 10` but only 5
units of simulation time remain (claim C6 and spec §8 scenario 2). -/
def clampState : OrchState Int Int Int :=
  { input := ⟨8, 2, [(1, 10), (0, 0)]⟩
    sync := ⟨8, 1, [(0, 100)]⟩
    aux := NSimBuffer.empty Int 8
    tickInfo := ⟨0, 1, 5, 0, NSimBuffer.empty Int 8⟩ }

/-- First schedule for the determinism witness: all three inputs arrive,
then one tick consumes them. -/
def schedA : List (SimOp Int) :=
  [.produceInput 3, .produceInput 4, .produceInput 5,
   .setMaxAllowedInputKeyframe 3, .setRemainingAllowedSimulationTime 100, .tick]

/-- Second schedule for the determinism witness: same input commands, but
spread over two ticks with different budgets and rate limits. -/
def schedB : List (SimOp Int) :=
  [.produceInput 3, .setMaxAllowedInputKeyframe 10,
   .setRemainingAllowedSimulationTime 50, .tick,
   .produceInput 4, .produceInput 5, .tick]

/-- A linkage call sequence violating claim C2: sims 0 and 1 become each
other's parents (a cycle), a direct `AddDepdentSimulation` registers 2
under 0 without setting 2's parent, and a direct
`RemoveDependentSimulation` strips 0 from 1's dependents while 0's parent
link still points at 1. -/
def badGraphOps : List GraphOp :=
  [.setParent 0 (some 1), .setParent 1 (some 0), .addDep 0 2, .removeDep 1 0]

/-- A linkage call sequence using only the `SetParentSimulation` /
`ClearAllDependentSimulations` / destructor discipline (witness input for
the amended claim C2). -/
def linkOnlyOps : List GraphOp :=
  [.setParent 0 (some 1), .setParent 2 (some 1), .clearAll 1, .setParent 0 (some 1), .destroy 1]

/-- Intermediate invariant of the `ClearAllDependentSimulations` fold:
the parent/dependents symmetry holds once the still-unprocessed former
dependents in `pending` are credited to `owner`, whose list was already
moved out. -/
def SimGraph.DetachWork (owner : Nat) (pending : List Nat) (g : SimGraph) : Prop :=
  ∀ x r : Nat,
    (x ∈ (g r).dependentSimulations ∨ (r = owner ∧ x ∈ pending))
      ↔ (g x).parentSimulation = some r

/-- `t`'s dependents list after `s` has been detached from its old parent
(the first step of `SetParentSimulation`). -/
def SimGraph.detached (g : SimGraph) (s t : Nat) : List Nat :=
  if (g s).parentSimulation = some t then
    (g t).dependentSimulations.filter (fun d => d ≠ s)
  else
    (g t).dependentSimulations

/-! # Theorems -/

/-! ## Buffer lemmas -/

theorem NSimBuffer.mem_of_find {α : Type} {b : NSimBuffer α} {k : Int} {c : α}
    (h : b.findElementByKeyframe k = some c) : (k, c) ∈ b.elems := by
  unfold NSimBuffer.findElementByKeyframe at h
  cases hf : b.elems.find? (fun e => e.1 == k) with
  | none => simp [hf] at h
  | some e =>
    have hm := List.mem_of_find?_eq_some hf
    have hp := List.find?_some hf
    simp only [beq_iff_eq] at hp
    simp only [hf, Option.map_some'] at h
    have : (k, c) = e := by
      cases e with
      | mk e1 e2 => simp_all
    simpa [this] using hm

theorem NSimBuffer.getHeadKeyframe_writeNext {α : Type} (b : NSimBuffer α) (v : α) :
    (b.writeNext v).getHeadKeyframe = b.nextWrite := by
  simp [NSimBuffer.writeNext, NSimBuffer.getHeadKeyframe]

theorem NSimBuffer.getHeadKeyframe_reset_writeNext {α : Type} (b : NSimBuffer α) (k : Int) (v : α) :
    ((b.resetNextHeadKeyframe k).writeNext v).getHeadKeyframe = k := by
  simp [NSimBuffer.resetNextHeadKeyframe, NSimBuffer.writeNext, NSimBuffer.getHeadKeyframe]

theorem NSimBuffer.find_reset_writeNext {α : Type} (b : NSimBuffer α) (k : Int) (v : α)
    (hcap : 1 ≤ b.capacity) :
    ((b.resetNextHeadKeyframe k).writeNext v).findElementByKeyframe k = some v := by
  obtain ⟨m, hm⟩ : ∃ m, b.capacity = m + 1 := ⟨b.capacity - 1, by omega⟩
  simp [NSimBuffer.resetNextHeadKeyframe, NSimBuffer.writeNext,
    NSimBuffer.findElementByKeyframe, hm, List.find?_cons_of_pos]

theorem NSimBuffer.mem_writeNext {α : Type} {b : NSimBuffer α} {v : α} {k : Int} {c : α}
    (h : (k, c) ∈ (b.writeNext v).elems) :
    (k = b.nextWrite ∧ c = v) ∨ (k, c) ∈ b.elems := by
  simp only [NSimBuffer.writeNext] at h
  have h2 := List.take_subset _ _ h
  rcases List.mem_cons.mp h2 with h3 | h3
  · left
    exact ⟨congrArg Prod.fst h3, congrArg Prod.snd h3⟩
  · right
    exact h3

theorem NSimBuffer.mem_reset {α : Type} {b : NSimBuffer α} {k : Int} {k' : Int} {c : α}
    (h : (k', c) ∈ (b.resetNextHeadKeyframe k).elems) : (k', c) ∈ b.elems ∧ k' < k := by
  simp only [NSimBuffer.resetNextHeadKeyframe] at h
  have := List.mem_filter.mp h
  simpa using this

/-! ## Consecutive-keyframe lemmas -/

theorem consecFrom_zero (a : Int) : consecFrom a 0 = [] := rfl

theorem consecFrom_succ (a : Int) (n : Nat) :
    consecFrom a (n + 1) = a :: consecFrom (a + 1) n := by
  simp only [consecFrom, List.range_succ_eq_map, List.map_cons, List.map_map]
  congr 1
  · simp
  · apply List.map_congr_left
    intro i _
    simp only [Function.comp_apply]
    push_cast
    ring

theorem mem_consecFrom {a j : Int} {n : Nat} (h : j ∈ consecFrom a n) :
    a ≤ j ∧ j < a + n := by
  simp only [consecFrom, List.mem_map, List.mem_range] at h
  obtain ⟨i, hi, rfl⟩ := h
  constructor
  · omega
  · omega

theorem consecFrom_mem_of_between {a j : Int} {n : Nat} (h1 : a ≤ j) (h2 : j < a + n) :
    j ∈ consecFrom a n := by
  simp only [consecFrom, List.mem_map, List.mem_range]
  refine ⟨(j - a).toNat, by omega, by omega⟩

/-! ## RPC pacing (claims C1, C10) -/

/-- Claim C1, divergence evidence.  The claim says each call adds `dt`
capped at the threshold to the accumulator.  The source computes the
capped value but adds the raw `DeltaTimeSeconds` — contradicting its own
"Don't allow a large delta time to pollute the accumulator" comment.  At
threshold `1/2` (hz = 2), accumulator `0` and `dt = 2`: the code leaves
the accumulator at `3/2`, while the capped behaviour the claim describes
would leave it at `0`. -/
theorem shouldSendServerRPC_adds_uncapped_delta :
    shouldSendServerRPC 2 ⟨0, 1/2⟩ = (true, ⟨3/2, 1/2⟩)
    ∧ shouldSendServerRPCSpecCapped 2 ⟨0, 1/2⟩ = (true, ⟨0, 1/2⟩) := by
  constructor
  · norm_num [shouldSendServerRPC]
  · norm_num [shouldSendServerRPCSpecCapped]

/-- Claim C10: a call to `ShouldSendServerRPC` returns true exactly when
the accumulator plus this call's `dt` reaches the threshold; on true it
subtracts exactly one threshold (it does not clear the accumulator), on
false it leaves the accumulated value; and while a surplus of at least one
threshold remains, every further call (with nonnegative `dt`) keeps
returning true, draining one threshold per call. -/
theorem shouldSendServerRPC_drains_one_threshold_per_call
    (st : ServerRPCPacing) (dt : ℚ) (hdt : 0 ≤ dt) :
    ((shouldSendServerRPC dt st).1
      = decide (st.serverRPCThresholdTimeSeconds
          ≤ st.serverRPCAccumulatedTimeSeconds + dt))
    ∧ ((shouldSendServerRPC dt st).1 = true →
        (shouldSendServerRPC dt st).2.serverRPCAccumulatedTimeSeconds
          = st.serverRPCAccumulatedTimeSeconds + dt - st.serverRPCThresholdTimeSeconds)
    ∧ ((shouldSendServerRPC dt st).1 = false →
        (shouldSendServerRPC dt st).2.serverRPCAccumulatedTimeSeconds
          = st.serverRPCAccumulatedTimeSeconds + dt)
    ∧ (st.serverRPCThresholdTimeSeconds ≤ st.serverRPCAccumulatedTimeSeconds →
        (shouldSendServerRPC dt st).1 = true) := by
  by_cases h : st.serverRPCThresholdTimeSeconds ≤ st.serverRPCAccumulatedTimeSeconds + dt
  · refine ⟨?_, ?_, ?_, ?_⟩ <;> simp [shouldSendServerRPC, h]
  · have h2 : ¬ st.serverRPCThresholdTimeSeconds ≤ st.serverRPCAccumulatedTimeSeconds := by
      intro hc
      exact h (by linarith)
    refine ⟨?_, ?_, ?_, ?_⟩ <;> simp [shouldSendServerRPC, h, h2]

/-- Witness for `shouldSendServerRPC_drains_one_threshold_per_call`:
threshold 1, accumulated surplus 5, `dt = 0` — the call still sends. -/
theorem shouldSendServerRPC_drains_one_threshold_per_call_witness :
    (0 : ℚ) ≤ 0 ∧ (1 : ℚ) ≤ 5
    ∧ (shouldSendServerRPC 0 (⟨5, 1⟩ : ServerRPCPacing)).1 = true :=
  ⟨le_refl 0, by norm_num,
    (shouldSendServerRPC_drains_one_threshold_per_call ⟨5, 1⟩ 0 (le_refl 0)).2.2.2
      (by norm_num)⟩

/-! ## Replication-target dispatch (claim C9) -/

/-- Claim C9: with `NETSIM_MODEL_DEBUG` disabled, `NetSerializeProxy` and
`GetProxyDirtyCount` on target `Debug` fall through to the unknown-target
assertion, while every debug-buffer accessor returns nothing in that
configuration. -/
theorem debug_target_asserts_when_debug_disabled :
    netSerializeProxy false .debug = .assertUnknownTarget
    ∧ getProxyDirtyCount false .debug = .assertUnknownTarget
    ∧ getLocalDebugBufferDisabled Unit = none
    ∧ getNextLocalDebugStateWriteDisabled Unit = none
    ∧ getHistoricBuffersDisabled Unit true = none
    ∧ getHistoricBuffersDisabled Unit false = none
    ∧ getRemoteDebugBufferDisabled Unit = none :=
  ⟨rfl, rfl, rfl, rfl, rfl, rfl, rfl⟩

/-! ## Dependent-simulation graph (claim C2) -/

theorem SimGraph.set_apply (g : SimGraph) (i : Nat) (n : SimNode) (j : Nat) :
    (g.set i n) j = if j = i then n else g j := rfl

theorem SimGraph.parent_removeDep (g : SimGraph) (q x t : Nat) :
    ((g.removeDependentSimulation q x) t).parentSimulation = (g t).parentSimulation := by
  by_cases h : t = q <;>
    simp [SimGraph.removeDependentSimulation, SimGraph.set_apply, h]

theorem SimGraph.parent_addDep (g : SimGraph) (p x t : Nat) :
    ((g.addDepdentSimulation p x) t).parentSimulation = (g t).parentSimulation := by
  by_cases h : t = p <;>
    simp [SimGraph.addDepdentSimulation, SimGraph.set_apply, h]

theorem SimGraph.deps_removeDep (g : SimGraph) (q x t : Nat) :
    ((g.removeDependentSimulation q x) t).dependentSimulations
      = if t = q then (g q).dependentSimulations.filter (fun d => d ≠ x)
        else (g t).dependentSimulations := by
  by_cases h : t = q <;>
    simp [SimGraph.removeDependentSimulation, SimGraph.set_apply, h]

theorem SimGraph.deps_addDep (g : SimGraph) (p x t : Nat) :
    ((g.addDepdentSimulation p x) t).dependentSimulations
      = if t = p then (g p).dependentSimulations ++ [x]
        else (g t).dependentSimulations := by
  by_cases h : t = p <;>
    simp [SimGraph.addDepdentSimulation, SimGraph.set_apply, h]

theorem SimGraph.parent_detach (g : SimGraph) (s t : Nat) :
    ((g.detachFromParent s) t).parentSimulation = (g t).parentSimulation := by
  cases hq : (g s).parentSimulation with
  | none => simp [SimGraph.detachFromParent, hq]
  | some q => simp [SimGraph.detachFromParent, hq, SimGraph.parent_removeDep]

theorem SimGraph.deps_detach (g : SimGraph) (s t : Nat) :
    ((g.detachFromParent s) t).dependentSimulations = g.detached s t := by
  cases hq : (g s).parentSimulation with
  | none => simp [SimGraph.detachFromParent, SimGraph.detached, hq]
  | some q =>
    rw [SimGraph.detachFromParent, hq, SimGraph.deps_removeDep]
    unfold SimGraph.detached
    rw [hq]
    by_cases h : t = q
    · subst h
      simp
    · have h2 : ¬ ((some q : Option Nat) = some t) := by
        simpa [eq_comm] using h
      simp [h, h2]

theorem SimGraph.parent_setParent (g : SimGraph) (s : Nat) (pq : Option Nat) (t : Nat) :
    ((g.setParentSimulation s pq) t).parentSimulation
      = if t = s then pq else (g t).parentSimulation := by
  cases pq with
  | none =>
    by_cases h : t = s <;>
      simp [SimGraph.setParentSimulation, SimGraph.set_apply, h, SimGraph.parent_detach]
  | some p =>
    simp only [SimGraph.setParentSimulation]
    rw [SimGraph.parent_addDep]
    by_cases h : t = s <;>
      simp [SimGraph.set_apply, h, SimGraph.parent_detach]

theorem SimGraph.deps_setParent (g : SimGraph) (s : Nat) (pq : Option Nat) (t : Nat) :
    ((g.setParentSimulation s pq) t).dependentSimulations
      = if pq = some t then g.detached s t ++ [s] else g.detached s t := by
  have hmid : ∀ u : Nat,
      (((g.detachFromParent s).set s
          { (g.detachFromParent s) s with parentSimulation := pq }) u).dependentSimulations
        = g.detached s u := by
    intro u
    by_cases h : u = s
    · subst h
      simp [SimGraph.set_apply, SimGraph.deps_detach]
    · simp [SimGraph.set_apply, h, SimGraph.deps_detach]
  cases pq with
  | none =>
    simp only [SimGraph.setParentSimulation]
    rw [hmid t]
    simp
  | some p =>
    simp only [SimGraph.setParentSimulation]
    rw [SimGraph.deps_addDep, hmid p, hmid t]
    by_cases h : t = p
    · subst h
      simp
    · have h2 : ¬ ((some p : Option Nat) = some t) := by
        simpa [eq_comm] using h
      simp [h, h2]

theorem SimGraph.mem_deps_setParent {g : SimGraph} {s : Nat} {pq : Option Nat} {t y : Nat} :
    y ∈ ((g.setParentSimulation s pq) t).dependentSimulations
      ↔ ((y ∈ (g t).dependentSimulations ∧ ((g s).parentSimulation = some t → y ≠ s))
          ∨ (pq = some t ∧ y = s)) := by
  rw [SimGraph.deps_setParent]
  unfold SimGraph.detached
  by_cases hp : pq = some t <;> by_cases hq : (g s).parentSimulation = some t <;>
    simp [hp, hq, List.mem_filter]

/-- `SetParentSimulation` preserves the parent/dependents symmetry. -/
theorem SimGraph.symm_setParent {g : SimGraph} (hs : g.Symmetric) (s : Nat) (pq : Option Nat) :
    (g.setParentSimulation s pq).Symmetric := by
  intro x r
  rw [SimGraph.mem_deps_setParent, SimGraph.parent_setParent]
  by_cases hx : x = s
  · subst hx
    rw [if_pos rfl]
    constructor
    · rintro (⟨hm, hcond⟩ | ⟨hp, _⟩)
      · exact absurd rfl (hcond ((hs x r).mp hm))
      · exact hp
    · intro hp
      exact Or.inr ⟨hp, rfl⟩
  · rw [if_neg hx]
    constructor
    · rintro (⟨hm, _⟩ | ⟨_, hxs⟩)
      · exact (hs x r).mp hm
      · exact absurd hxs hx
    · intro hp
      exact Or.inl ⟨(hs x r).mpr hp, fun _ => hx⟩

theorem SimGraph.nodup_detached {g : SimGraph} (hn : g.DepsNodup) (s t : Nat) :
    (g.detached s t).Nodup := by
  unfold SimGraph.detached
  split
  · exact (hn t).filter _
  · exact hn t

theorem SimGraph.not_mem_detached {g : SimGraph} (hs : g.Symmetric) {s t : Nat}
    (hp : (g s).parentSimulation = some t ∨ s ∉ (g t).dependentSimulations) :
    s ∉ g.detached s t := by
  unfold SimGraph.detached
  split
  · intro hmem
    have := (List.mem_filter.mp hmem).2
    simp at this
  · rename_i hq
    rcases hp with hp | hp
    · exact absurd hp hq
    · exact hp

/-- `SetParentSimulation` preserves duplicate-freedom of dependents lists
(on symmetric states). -/
theorem SimGraph.nodup_setParent {g : SimGraph} (hs : g.Symmetric) (hn : g.DepsNodup)
    (s : Nat) (pq : Option Nat) : (g.setParentSimulation s pq).DepsNodup := by
  intro t
  rw [SimGraph.deps_setParent]
  split
  · rename_i hp
    refine (List.nodup_append).mpr ⟨SimGraph.nodup_detached hn s t, List.nodup_singleton s, ?_⟩
    intro y hy hy2
    have hys : y = s := List.mem_singleton.mp hy2
    rw [hys] at hy
    refine SimGraph.not_mem_detached hs ?_ hy
    by_cases hq : (g s).parentSimulation = some t
    · exact Or.inl hq
    · exact Or.inr (fun hm => hq ((hs s t).mp hm))
  · exact SimGraph.nodup_detached hn s t

/-- `SetParentSimulation(nullptr)` preserves duplicate-freedom on any
state (it only filters lists). -/
theorem SimGraph.nodup_setParent_none {g : SimGraph} (hn : g.DepsNodup) (s : Nat) :
    (g.setParentSimulation s none).DepsNodup := by
  intro t
  rw [SimGraph.deps_setParent]
  simp only [if_neg (by simp : (none : Option Nat) ≠ some t)]
  exact SimGraph.nodup_detached hn s t

/-- The detach fold of `ClearAllDependentSimulations` restores symmetry
once every pending dependent has been processed. -/
theorem SimGraph.detach_fold (owner : Nat) :
    ∀ (pending : List Nat) (τ : SimGraph), SimGraph.DetachWork owner pending τ →
      pending.Nodup → τ.DepsNodup →
      SimGraph.Symmetric
          (pending.foldl (fun acc d => acc.setParentSimulation d none) τ)
        ∧ SimGraph.DepsNodup
            (pending.foldl (fun acc d => acc.setParentSimulation d none) τ)
  | [], τ, hw, _, hn => by
    refine ⟨fun x r => ?_, hn⟩
    have := hw x r
    simpa using this
  | d :: pending, τ, hw, hnd, hn => by
    have hdparent : (τ d).parentSimulation = some owner :=
      (hw d owner).mp (Or.inr ⟨rfl, List.mem_cons_self d pending⟩)
    have hdnotin : d ∉ pending := (List.nodup_cons.mp hnd).1
    simp only [List.foldl_cons]
    refine SimGraph.detach_fold owner pending (τ.setParentSimulation d none) ?_
      (List.nodup_cons.mp hnd).2 (SimGraph.nodup_setParent_none hn d)
    intro x r
    rw [SimGraph.mem_deps_setParent, SimGraph.parent_setParent]
    by_cases hx : x = d
    · subst hx
      rw [if_pos rfl]
      constructor
      · rintro ((⟨hm, hcond⟩ | ⟨hnone, _⟩) | ⟨_, hmem⟩)
        · exact absurd rfl (hcond ((hw x r).mp (Or.inl hm)))
        · exact absurd hnone (by simp)
        · exact absurd hmem hdnotin
      · intro hcontra
        exact absurd hcontra (by simp)
    · rw [if_neg hx]
      constructor
      · rintro ((⟨hm, _⟩ | ⟨_, hxd⟩) | ⟨hr, hmem⟩)
        · exact (hw x r).mp (Or.inl hm)
        · exact absurd hxd hx
        · exact (hw x r).mp (Or.inr ⟨hr, List.mem_cons_of_mem d hmem⟩)
      · intro hp
        rcases (hw x r).mpr hp with hm | ⟨hr, hmem⟩
        · exact Or.inl (Or.inl ⟨hm, fun _ => hx⟩)
        · rcases List.mem_cons.mp hmem with hxd | hmem2
          · exact absurd hxd hx
          · exact Or.inr ⟨hr, hmem2⟩

/-- `ClearAllDependentSimulations` preserves symmetry and
duplicate-freedom. -/
theorem SimGraph.symm_clearAll {g : SimGraph} (hs : g.Symmetric) (hn : g.DepsNodup) (s : Nat) :
    (g.clearAllDependentSimulations s).Symmetric
      ∧ (g.clearAllDependentSimulations s).DepsNodup := by
  unfold SimGraph.clearAllDependentSimulations
  refine SimGraph.detach_fold s (g s).dependentSimulations _ ?_ (hn s) ?_
  · intro x r
    have hparent :
        ((g.set s { g s with dependentSimulations := [] }) x).parentSimulation
          = (g x).parentSimulation := by
      by_cases hu : x = s <;> simp [SimGraph.set_apply, hu]
    rw [hparent]
    by_cases hr : r = s
    · subst hr
      simp only [SimGraph.set_apply, if_pos rfl]
      constructor
      · rintro (hm | ⟨_, hmem⟩)
        · simp at hm
        · exact (hs x r).mp hmem
      · intro hp
        exact Or.inr ⟨by trivial, (hs x r).mpr hp⟩
    · simp only [SimGraph.set_apply, if_neg hr]
      constructor
      · rintro (hm | ⟨hrs, _⟩)
        · exact (hs x r).mp hm
        · exact absurd hrs hr
      · intro hp
        exact Or.inl ((hs x r).mpr hp)
  · intro t
    by_cases ht : t = s
    · simp [SimGraph.set_apply, ht]
    · simp only [SimGraph.set_apply, if_neg ht]
      exact hn t

/-- The destructor preserves symmetry and duplicate-freedom. -/
theorem SimGraph.symm_destroy {g : SimGraph} (hs : g.Symmetric) (hn : g.DepsNodup) (s : Nat) :
    (g.destroy s).Symmetric ∧ (g.destroy s).DepsNodup := by
  unfold SimGraph.destroy
  exact SimGraph.symm_clearAll (SimGraph.symm_setParent hs s none)
    (SimGraph.nodup_setParent hs hn s none) s

theorem SimGraph.symm_foldl :
    ∀ (ops : List GraphOp) (g : SimGraph), g.Symmetric → g.DepsNodup →
      (∀ op ∈ ops, op.linkOnly) →
      (ops.foldl SimGraph.applyOp g).Symmetric ∧ (ops.foldl SimGraph.applyOp g).DepsNodup
  | [], g, hs, hn, _ => ⟨hs, hn⟩
  | op :: ops, g, hs, hn, hlink => by
    have hop := hlink op (List.mem_cons_self op ops)
    have hrest : ∀ o ∈ ops, o.linkOnly :=
      fun o ho => hlink o (List.mem_cons_of_mem op ho)
    simp only [List.foldl_cons]
    cases op with
    | setParent s p =>
      exact SimGraph.symm_foldl ops _ (SimGraph.symm_setParent hs s p)
        (SimGraph.nodup_setParent hs hn s p) hrest
    | clearAll s =>
      obtain ⟨h1, h2⟩ := SimGraph.symm_clearAll hs hn s
      exact SimGraph.symm_foldl ops _ h1 h2 hrest
    | destroy s =>
      obtain ⟨h1, h2⟩ := SimGraph.symm_destroy hs hn s
      exact SimGraph.symm_foldl ops _ h1 h2 hrest
    | addDep p s => exact absurd hop (by simp [GraphOp.linkOnly])
    | removeDep p s => exact absurd hop (by simp [GraphOp.linkOnly])

/-- Claim C2, counterexample.  After the `badGraphOps` call sequence the
graph has the parent cycle `0 → 1 → 0`, sim 0's parent link points at 1
while 0 is missing from 1's dependents, and 2 sits in 0's dependents while
2's parent link is unset — refuting both the acyclicity and both
directions of the containment-iff in the claim. -/
theorem dependent_graph_claim_counterexample :
    ((SimGraph.run badGraphOps) 0).parentSimulation = some 1
    ∧ ((SimGraph.run badGraphOps) 1).parentSimulation = some 0
    ∧ 0 ∉ ((SimGraph.run badGraphOps) 1).dependentSimulations
    ∧ 2 ∈ ((SimGraph.run badGraphOps) 0).dependentSimulations
    ∧ ((SimGraph.run badGraphOps) 2).parentSimulation = none := by
  refine ⟨?_, ?_, ?_, ?_, ?_⟩ <;> decide

/-- Claim C2, amended.  For call sequences in which dependents lists are
mutated only through `SetParentSimulation`, `ClearAllDependentSimulations`
and the destructor (never by direct `AddDepdentSimulation` /
`RemoveDependentSimulation` calls), the containment symmetry holds after
every call: a sim appears in another sim's dependents list exactly when
its parent link points at that sim.  Acyclicity is not guaranteed even
then: `SetParentSimulation` has no cycle guard
(`dependent_graph_claim_counterexample` builds the 2-cycle `0 ↔ 1` out of
`SetParentSimulation` calls alone). -/
theorem dependent_graph_symmetry_under_link_discipline
    (ops : List GraphOp) (h : ∀ op ∈ ops, op.linkOnly) :
    SimGraph.Symmetric (SimGraph.run ops) :=
  (SimGraph.symm_foldl ops SimGraph.init
    (fun x r => by simp [SimGraph.init])
    (fun p => List.nodup_nil) h).1

/-- Witness for `dependent_graph_symmetry_under_link_discipline` on the
concrete `linkOnlyOps` sequence, read off at the pair (0, 1). -/
theorem dependent_graph_symmetry_under_link_discipline_witness :
    (∀ op ∈ linkOnlyOps, op.linkOnly)
    ∧ (0 ∈ ((SimGraph.run linkOnlyOps) 1).dependentSimulations
        ↔ ((SimGraph.run linkOnlyOps) 0).parentSimulation = some 1) :=
  ⟨fun op hop => by fin_cases hop <;> trivial,
    dependent_graph_symmetry_under_link_discipline linkOnlyOps
      (fun op hop => by fin_cases hop <;> trivial) 0 1⟩

/-! ## Tick engine lemmas -/

theorem recoveredState_input {ι σ ω : Type} (P : SimDef ι σ ω) (s : OrchState ι σ ω) :
    (recoveredState P s).input = s.input := rfl

theorem recoveredState_lpk {ι σ ω : Type} (P : SimDef ι σ ω) (s : OrchState ι σ ω) :
    (recoveredState P s).tickInfo.lastProcessedInputKeyframe
      = s.tickInfo.lastProcessedInputKeyframe := rfl

theorem recoveredState_max {ι σ ω : Type} (P : SimDef ι σ ω) (s : OrchState ι σ ω) :
    (recoveredState P s).tickInfo.maxAllowedInputKeyframe
      = s.tickInfo.maxAllowedInputKeyframe := rfl

theorem recoveredState_total {ι σ ω : Type} (P : SimDef ι σ ω) (s : OrchState ι σ ω) :
    (recoveredState P s).tickInfo.totalProcessedSimulationTime
      = s.tickInfo.totalProcessedSimulationTime := rfl

theorem recoveredState_sync_head {ι σ ω : Type} (P : SimDef ι σ ω) (s : OrchState ι σ ω) :
    (recoveredState P s).sync.getHeadKeyframe = s.tickInfo.lastProcessedInputKeyframe :=
  NSimBuffer.getHeadKeyframe_reset_writeNext _ _ _

/-- The three control paths of the `Tick` core: no unprocessed input; the
aligned path straight into the loop; the continuity-break path through the
re-seed. -/
theorem tickCore_cases {ι σ ω : Type} (P : SimDef ι σ ω) (s : OrchState ι σ ω) :
    (¬ s.input.getHeadKeyframe > s.sync.getHeadKeyframe ∧ tickCore P s = (s, [], false))
    ∨ (s.input.getHeadKeyframe > s.sync.getHeadKeyframe
        ∧ s.sync.getHeadKeyframe = s.tickInfo.lastProcessedInputKeyframe
        ∧ tickCore P s
            = ((inputLoop P
                (s.tickInfo.maxAllowedInputKeyframe
                  - s.tickInfo.lastProcessedInputKeyframe).toNat s).1,
              (inputLoop P
                (s.tickInfo.maxAllowedInputKeyframe
                  - s.tickInfo.lastProcessedInputKeyframe).toNat s).2,
              false))
    ∨ (s.input.getHeadKeyframe > s.sync.getHeadKeyframe
        ∧ s.sync.getHeadKeyframe ≠ s.tickInfo.lastProcessedInputKeyframe
        ∧ tickCore P s
            = ((inputLoop P
                (s.tickInfo.maxAllowedInputKeyframe
                  - s.tickInfo.lastProcessedInputKeyframe).toNat (recoveredState P s)).1,
              (inputLoop P
                (s.tickInfo.maxAllowedInputKeyframe
                  - s.tickInfo.lastProcessedInputKeyframe).toNat (recoveredState P s)).2,
              decide (s.tickInfo.lastProcessedInputKeyframe ≠ 0))) := by
  by_cases h1 : s.input.getHeadKeyframe > s.sync.getHeadKeyframe
  · by_cases h2 : s.sync.getHeadKeyframe = s.tickInfo.lastProcessedInputKeyframe
    · refine Or.inr (Or.inl ⟨h1, h2, ?_⟩)
      unfold tickCore
      rw [if_pos h1, if_neg (by simp [h2])]
    · refine Or.inr (Or.inr ⟨h1, h2, ?_⟩)
      unfold tickCore
      rw [if_pos h1, if_pos h2]
      rfl
  · refine Or.inl ⟨h1, ?_⟩
    unfold tickCore
    rw [if_neg h1]

theorem stepState_input {ι σ ω : Type} (P : SimDef ι σ ω) (s : OrchState ι σ ω)
    (nextCmd : ι) (prevSyncState : σ) :
    (stepState P s nextCmd prevSyncState).input = s.input := rfl

theorem stepState_lpk {ι σ ω : Type} (P : SimDef ι σ ω) (s : OrchState ι σ ω)
    (nextCmd : ι) (prevSyncState : σ) :
    (stepState P s nextCmd prevSyncState).tickInfo.lastProcessedInputKeyframe
      = s.tickInfo.lastProcessedInputKeyframe + 1 := rfl

/-- Behaviour of the input consumption loop: the processed keyframes form
a consecutive run starting right after `LastProcessedInputKeyframe`, the
Input buffer is untouched, `LastProcessedInputKeyframe` advances by the
number of processed keyframes, and every processed keyframe was present in
the Input buffer. -/
theorem inputLoop_spec {ι σ ω : Type} (P : SimDef ι σ ω) :
    ∀ (fuel : Nat) (s : OrchState ι σ ω),
      (inputLoop P fuel s).2
          = consecFrom (s.tickInfo.lastProcessedInputKeyframe + 1)
              (inputLoop P fuel s).2.length
      ∧ (inputLoop P fuel s).1.input = s.input
      ∧ (inputLoop P fuel s).1.tickInfo.lastProcessedInputKeyframe
          = s.tickInfo.lastProcessedInputKeyframe + (inputLoop P fuel s).2.length
      ∧ ∀ j ∈ (inputLoop P fuel s).2, (s.input.findElementByKeyframe j).isSome
  | 0, s => by simp [inputLoop, consecFrom]
  | fuel + 1, s => by
    simp only [inputLoop]
    by_cases hmax :
        s.tickInfo.lastProcessedInputKeyframe + 1 > s.tickInfo.maxAllowedInputKeyframe
    · simp [hmax, consecFrom]
    · rw [if_neg hmax]
      cases hfind :
          s.input.findElementByKeyframe (s.tickInfo.lastProcessedInputKeyframe + 1) with
      | none => simp [consecFrom]
      | some nextCmd =>
        simp only
        by_cases hbudget :
            P.frameDeltaTime nextCmd ≤ s.tickInfo.remainingAllowedSimulationTime
        · rw [if_pos hbudget]
          cases hprev :
              s.sync.findElementByKeyframe s.tickInfo.lastProcessedInputKeyframe with
          | none => simp [consecFrom]
          | some prevSyncState =>
            simp only
            obtain ⟨ih1, ih2, ih3, ih4⟩ :=
              inputLoop_spec P fuel (stepState P s nextCmd prevSyncState)
            rw [stepState_lpk] at ih1 ih3
            rw [stepState_input] at ih2 ih4
            refine ⟨?_, ?_, ?_, ?_⟩
            · rw [List.length_cons, consecFrom_succ, ← ih1]
            · exact ih2
            · simp only [List.length_cons]
              omega
            · intro j hj
              rcases List.mem_cons.mp hj with rfl | hj2
              · simp [hfind]
              · exact ih4 j hj2
        · simp [hbudget, consecFrom]

/-- Claim C3: a tick that enters the update path (`Input.head > Sync.head`)
and finds the Sync head out of line with `LastProcessedInputKeyframe`
recovers: the warning fires exactly when `LastProcessedInputKeyframe ≠ 0`
(first run is silent), the Sync buffer is re-seeded via
`ResetNextHeadKeyframe(LastProcessedInputKeyframe)` with the new head
element filled by the driver's `InitSyncState` (head lands back on
`LastProcessedInputKeyframe`), the per-keyframe simulation-time stamp is
restarted there with the total unchanged, and the tick then proceeds into
the input consumption loop from that re-seeded state. -/
theorem tick_recovers_from_continuity_break {ι σ ω : Type} (P : SimDef ι σ ω)
    (s : OrchState ι σ ω)
    (hin : s.input.getHeadKeyframe > s.sync.getHeadKeyframe)
    (hbreak : s.sync.getHeadKeyframe ≠ s.tickInfo.lastProcessedInputKeyframe)
    (hcap : 1 ≤ s.sync.capacity) :
    (tickCore P s).2.2 = decide (s.tickInfo.lastProcessedInputKeyframe ≠ 0)
    ∧ (recoveredState P s).sync.getHeadKeyframe = s.tickInfo.lastProcessedInputKeyframe
    ∧ (recoveredState P s).sync.findElementByKeyframe s.tickInfo.lastProcessedInputKeyframe
        = some P.initSyncState
    ∧ (recoveredState P s).tickInfo.totalProcessedSimulationTime
        = s.tickInfo.totalProcessedSimulationTime
    ∧ (recoveredState P s).tickInfo.simulationTimeBuffer
        = (s.tickInfo.simulationTimeBuffer.resetNextHeadKeyframe
            s.tickInfo.lastProcessedInputKeyframe).writeNext
            s.tickInfo.totalProcessedSimulationTime
    ∧ (tickCore P s).1
        = (inputLoop P
            (s.tickInfo.maxAllowedInputKeyframe
              - s.tickInfo.lastProcessedInputKeyframe).toNat (recoveredState P s)).1
    ∧ (tickCore P s).2.1
        = (inputLoop P
            (s.tickInfo.maxAllowedInputKeyframe
              - s.tickInfo.lastProcessedInputKeyframe).toNat (recoveredState P s)).2 := by
  rcases tickCore_cases P s with ⟨h, _⟩ | ⟨_, h2, _⟩ | ⟨_, _, heq⟩
  · exact absurd hin h
  · exact absurd h2 hbreak
  · refine ⟨by rw [heq], recoveredState_sync_head P s,
      NSimBuffer.find_reset_writeNext _ _ _ hcap, rfl, ?_, by rw [heq], by rw [heq]⟩
    simp [recoveredState, TickState.setTotalProcessedSimulationTime,
      NSimBuffer.getHeadKeyframe_reset_writeNext]

/-- Witness for `tick_recovers_from_continuity_break` on `breakState`
(`LastProcessedInputKeyframe = 5`, Sync head 0): the warning fires. -/
theorem tick_recovers_from_continuity_break_witness :
    breakState.input.getHeadKeyframe > breakState.sync.getHeadKeyframe
    ∧ breakState.sync.getHeadKeyframe ≠ breakState.tickInfo.lastProcessedInputKeyframe
    ∧ 1 ≤ breakState.sync.capacity
    ∧ (tickCore intSim breakState).2.2
        = decide (breakState.tickInfo.lastProcessedInputKeyframe ≠ 0) :=
  ⟨by decide, by decide, by decide,
    (tick_recovers_from_continuity_break intSim breakState
      (by decide) (by decide) (by decide)).1⟩

/-- Claim C5: within one tick the processed input keyframes are exactly a
consecutive run starting at `LastProcessedInputKeyframe + 1`, and a
keyframe missing from the Input buffer ends consumption — `Update` is
never invoked at or beyond a gap in the same tick. -/
theorem tick_processes_consecutive_keyframes_stopping_at_gap {ι σ ω : Type}
    (P : SimDef ι σ ω) (s : OrchState ι σ ω) :
    ((tickCore P s).2.1
        = consecFrom (s.tickInfo.lastProcessedInputKeyframe + 1) (tickCore P s).2.1.length)
    ∧ (∀ k : Int, s.tickInfo.lastProcessedInputKeyframe < k →
        s.input.findElementByKeyframe k = none →
        ∀ j ∈ (tickCore P s).2.1, j < k) := by
  rcases tickCore_cases P s with ⟨_, heq⟩ | ⟨_, _, heq⟩ | ⟨_, _, heq⟩
  · rw [heq]
    exact ⟨rfl, fun k _ _ j hj => absurd hj (List.not_mem_nil j)⟩
  · obtain ⟨hc, _, _, hsome⟩ := inputLoop_spec P
      (s.tickInfo.maxAllowedInputKeyframe - s.tickInfo.lastProcessedInputKeyframe).toNat s
    rw [heq]
    refine ⟨hc, fun k hk hnone j hj => ?_⟩
    by_contra hge
    push_neg at hge
    have hj2 := mem_consecFrom (hc ▸ hj)
    have hkmem : k ∈ (inputLoop P
        (s.tickInfo.maxAllowedInputKeyframe
          - s.tickInfo.lastProcessedInputKeyframe).toNat s).2 := by
      rw [hc]
      exact consecFrom_mem_of_between (by omega) (by omega)
    have := hsome k hkmem
    rw [hnone] at this
    simp at this
  · obtain ⟨hc0, _, _, hsome0⟩ := inputLoop_spec P
      (s.tickInfo.maxAllowedInputKeyframe - s.tickInfo.lastProcessedInputKeyframe).toNat
      (recoveredState P s)
    have hc : (inputLoop P
        (s.tickInfo.maxAllowedInputKeyframe
          - s.tickInfo.lastProcessedInputKeyframe).toNat (recoveredState P s)).2
        = consecFrom (s.tickInfo.lastProcessedInputKeyframe + 1)
            (inputLoop P
              (s.tickInfo.maxAllowedInputKeyframe
                - s.tickInfo.lastProcessedInputKeyframe).toNat (recoveredState P s)).2.length :=
      hc0
    have hsome : ∀ j ∈ (inputLoop P
        (s.tickInfo.maxAllowedInputKeyframe
          - s.tickInfo.lastProcessedInputKeyframe).toNat (recoveredState P s)).2,
        (s.input.findElementByKeyframe j).isSome := hsome0
    rw [heq]
    refine ⟨hc, fun k hk hnone j hj => ?_⟩
    by_contra hge
    push_neg at hge
    have hj2 := mem_consecFrom (hc ▸ hj)
    have hkmem : k ∈ (inputLoop P
        (s.tickInfo.maxAllowedInputKeyframe
          - s.tickInfo.lastProcessedInputKeyframe).toNat (recoveredState P s)).2 := by
      rw [hc]
      exact consecFrom_mem_of_between (by omega) (by omega)
    have := hsome k hkmem
    rw [hnone] at this
    simp at this

/-- Witness for `tick_processes_consecutive_keyframes_stopping_at_gap` on
`gapState` (Input holds keyframes 1 and 3, not 2): only keyframe 1 is
processed, stopping below the gap at 2. -/
theorem tick_processes_consecutive_keyframes_stopping_at_gap_witness :
    gapState.tickInfo.lastProcessedInputKeyframe < 2
    ∧ gapState.input.findElementByKeyframe 2 = none
    ∧ (tickCore intSim gapState).2.1 = [1]
    ∧ ∀ j ∈ (tickCore intSim gapState).2.1, j < 2 :=
  ⟨by decide, by decide, by decide,
    (tick_processes_consecutive_keyframes_stopping_at_gap intSim gapState).2
      2 (by decide) (by decide)⟩

/-- The input loop breaks immediately when the next command's frame delta
exceeds the remaining time budget (or the rate limit is already hit),
returning the state untouched. -/
theorem inputLoop_breaks_on_budget {ι σ ω : Type} (P : SimDef ι σ ω)
    (fuel : Nat) (s : OrchState ι σ ω) (nextCmd : ι)
    (hfind : s.input.findElementByKeyframe (s.tickInfo.lastProcessedInputKeyframe + 1)
      = some nextCmd)
    (hbudget : s.tickInfo.remainingAllowedSimulationTime < P.frameDeltaTime nextCmd) :
    inputLoop P fuel s = (s, []) := by
  cases fuel with
  | zero => rfl
  | succ n =>
    simp only [inputLoop]
    by_cases hmax :
        s.tickInfo.lastProcessedInputKeyframe + 1 > s.tickInfo.maxAllowedInputKeyframe
    · rw [if_pos hmax]
    · rw [if_neg hmax, hfind]
      simp only
      rw [if_neg (by omega)]

/-- A loop whose first candidate keyframe is admissible (within the rate
limit, present in Input, inside the budget, previous Sync present)
processes it first. -/
theorem inputLoop_first_step {ι σ ω : Type} (P : SimDef ι σ ω)
    (n : Nat) (s : OrchState ι σ ω) (nextCmd : ι) (prevSyncState : σ)
    (hmax : ¬ s.tickInfo.lastProcessedInputKeyframe + 1 > s.tickInfo.maxAllowedInputKeyframe)
    (hfind : s.input.findElementByKeyframe (s.tickInfo.lastProcessedInputKeyframe + 1)
      = some nextCmd)
    (hbudget : P.frameDeltaTime nextCmd ≤ s.tickInfo.remainingAllowedSimulationTime)
    (hprev : s.sync.findElementByKeyframe s.tickInfo.lastProcessedInputKeyframe
      = some prevSyncState) :
    inputLoop P (n + 1) s
      = ((inputLoop P n (stepState P s nextCmd prevSyncState)).1,
        (s.tickInfo.lastProcessedInputKeyframe + 1)
          :: (inputLoop P n (stepState P s nextCmd prevSyncState)).2) := by
  simp only [inputLoop]
  rw [if_neg hmax, hfind]
  simp only
  rw [if_pos hbudget, hprev]

/-- Claim C6: when the next input command's frame delta time exceeds the
remaining simulation-time budget, the tick stops consuming without error —
Sync buffer, `LastProcessedInputKeyframe` and `TotalProcessedSimulationTime`
are left exactly as they were (the whole state is unchanged) and nothing
is processed; and once the budget is refilled to cover that command, the
next tick consumes that very keyframe first. -/
theorem tick_budget_underflow_stops_and_resumes {ι σ ω : Type} (P : SimDef ι σ ω)
    (s : OrchState ι σ ω) (nextCmd : ι)
    (halign : s.sync.getHeadKeyframe = s.tickInfo.lastProcessedInputKeyframe)
    (hfind : s.input.findElementByKeyframe (s.tickInfo.lastProcessedInputKeyframe + 1)
      = some nextCmd)
    (hbudget : s.tickInfo.remainingAllowedSimulationTime < P.frameDeltaTime nextCmd) :
    (tickCore P s).1 = s
    ∧ (tickCore P s).2.1 = []
    ∧ (∀ r : Int, P.frameDeltaTime nextCmd ≤ r →
        s.tickInfo.lastProcessedInputKeyframe + 1 ≤ s.tickInfo.maxAllowedInputKeyframe →
        (s.sync.findElementByKeyframe s.tickInfo.lastProcessedInputKeyframe).isSome →
        s.input.getHeadKeyframe > s.sync.getHeadKeyframe →
        ∃ rest, (tickCore P
            { s with tickInfo :=
                { s.tickInfo with remainingAllowedSimulationTime := r } }).2.1
          = (s.tickInfo.lastProcessedInputKeyframe + 1) :: rest) := by
  refine ⟨?_, ?_, ?_⟩
  · rcases tickCore_cases P s with ⟨_, heq⟩ | ⟨_, _, heq⟩ | ⟨_, h2, _⟩
    · rw [heq]
    · rw [heq, inputLoop_breaks_on_budget P _ s nextCmd hfind hbudget]
    · exact absurd halign h2
  · rcases tickCore_cases P s with ⟨_, heq⟩ | ⟨_, _, heq⟩ | ⟨_, h2, _⟩
    · rw [heq]
    · rw [heq, inputLoop_breaks_on_budget P _ s nextCmd hfind hbudget]
    · exact absurd halign h2
  · intro r hr hmax hprev hhead
    obtain ⟨prevSyncState, hprevEq⟩ := Option.isSome_iff_exists.mp hprev
    set s2 : OrchState ι σ ω :=
      { s with tickInfo :=
          { s.tickInfo with remainingAllowedSimulationTime := r } } with hs2
    have hlpk2 : s2.tickInfo.lastProcessedInputKeyframe
        = s.tickInfo.lastProcessedInputKeyframe := by rw [hs2]
    have hmax2 : s2.tickInfo.maxAllowedInputKeyframe
        = s.tickInfo.maxAllowedInputKeyframe := by rw [hs2]
    have hrem2 : s2.tickInfo.remainingAllowedSimulationTime = r := by rw [hs2]
    have hinp2 : s2.input = s.input := by rw [hs2]
    have hsync2 : s2.sync = s.sync := by rw [hs2]
    obtain ⟨n, hn⟩ : ∃ n,
        (s2.tickInfo.maxAllowedInputKeyframe
          - s2.tickInfo.lastProcessedInputKeyframe).toNat = n + 1 :=
      ⟨(s.tickInfo.maxAllowedInputKeyframe
          - s.tickInfo.lastProcessedInputKeyframe).toNat - 1, by
        rw [hlpk2, hmax2]
        omega⟩
    rcases tickCore_cases P s2 with ⟨hnot, _⟩ | ⟨_, _, heq⟩ | ⟨_, h2, _⟩
    · rw [hinp2, hsync2] at hnot
      exact absurd hhead hnot
    · have hloop := inputLoop_first_step P n s2 nextCmd prevSyncState
        (by rw [hlpk2, hmax2]; omega)
        (by rw [hinp2, hlpk2]; exact hfind)
        (by rw [hrem2]; exact hr)
        (by rw [hsync2, hlpk2]; exact hprevEq)
      rw [heq, hn, hloop]
      exact ⟨(inputLoop P n (stepState P s2 nextCmd prevSyncState)).2, by rw [hlpk2]⟩
    · rw [hsync2, hlpk2] at h2
      exact absurd halign h2

/-- Witness for `tick_budget_underflow_stops_and_resumes` on `clampState`
(budget 5, next command needs 10): the tick leaves the state unchanged. -/
theorem tick_budget_underflow_stops_and_resumes_witness :
    clampState.sync.getHeadKeyframe = clampState.tickInfo.lastProcessedInputKeyframe
    ∧ clampState.input.findElementByKeyframe
        (clampState.tickInfo.lastProcessedInputKeyframe + 1) = some 10
    ∧ clampState.tickInfo.remainingAllowedSimulationTime < intSim.frameDeltaTime 10
    ∧ (tickCore intSim clampState).1 = clampState :=
  ⟨by decide, by decide, by decide,
    (tick_budget_underflow_stops_and_resumes intSim clampState 10
      (by decide) (by decide) (by decide)).1⟩

/-! ## Aux isolation (claim C8) -/

/-- The input loop neither reads nor writes the Aux buffer: it passes
through unchanged, and states differing only in the Aux buffer run
identically. -/
theorem inputLoop_aux_transparent {ι σ ω : Type} (P : SimDef ι σ ω) :
    ∀ (fuel : Nat) (s : OrchState ι σ ω) (b : NSimBuffer ω),
      inputLoop P fuel { s with aux := b }
        = ({ (inputLoop P fuel s).1 with aux := b }, (inputLoop P fuel s).2)
  | 0, s, b => rfl
  | fuel + 1, s, b => by
    simp only [inputLoop]
    by_cases hmax :
        s.tickInfo.lastProcessedInputKeyframe + 1 > s.tickInfo.maxAllowedInputKeyframe
    · simp [hmax]
    · rw [if_neg hmax, if_neg hmax]
      cases hfind :
          s.input.findElementByKeyframe (s.tickInfo.lastProcessedInputKeyframe + 1) with
      | none => simp
      | some nextCmd =>
        simp only
        by_cases hbudget :
            P.frameDeltaTime nextCmd ≤ s.tickInfo.remainingAllowedSimulationTime
        · rw [if_pos hbudget, if_pos hbudget]
          cases hprev :
              s.sync.findElementByKeyframe s.tickInfo.lastProcessedInputKeyframe with
          | none => simp
          | some prevSyncState =>
            simp only
            have hstep : stepState P { s with aux := b } nextCmd prevSyncState
                = { stepState P s nextCmd prevSyncState with aux := b } := rfl
            rw [hstep, inputLoop_aux_transparent P fuel (stepState P s nextCmd prevSyncState) b]
        · rw [if_neg hbudget, if_neg hbudget]

/-- The input loop under `withAuxAlwaysDefault P` coincides with the loop
under `P`: every `Update` call already receives the default-constructed
Aux value. -/
theorem inputLoop_aux_always_default {ι σ ω : Type} (P : SimDef ι σ ω) :
    ∀ (fuel : Nat) (s : OrchState ι σ ω),
      inputLoop (withAuxAlwaysDefault P) fuel s = inputLoop P fuel s
  | 0, s => rfl
  | fuel + 1, s => by
    have hfdt : (withAuxAlwaysDefault P).frameDeltaTime = P.frameDeltaTime := rfl
    simp only [inputLoop, hfdt]
    by_cases hmax :
        s.tickInfo.lastProcessedInputKeyframe + 1 > s.tickInfo.maxAllowedInputKeyframe
    · simp [hmax]
    · rw [if_neg hmax, if_neg hmax]
      cases hfind :
          s.input.findElementByKeyframe (s.tickInfo.lastProcessedInputKeyframe + 1) with
      | none => simp
      | some nextCmd =>
        simp only
        by_cases hbudget :
            P.frameDeltaTime nextCmd ≤ s.tickInfo.remainingAllowedSimulationTime
        · rw [if_pos hbudget, if_pos hbudget]
          cases hprev :
              s.sync.findElementByKeyframe s.tickInfo.lastProcessedInputKeyframe with
          | none => simp
          | some prevSyncState =>
            simp only
            have hstep : stepState (withAuxAlwaysDefault P) s nextCmd prevSyncState
                = stepState P s nextCmd prevSyncState := rfl
            rw [hstep, inputLoop_aux_always_default P fuel (stepState P s nextCmd prevSyncState)]
        · rw [if_neg hbudget, if_neg hbudget]

/-- Claim C8: the contents of the orchestrator's Aux buffer never
influence the tick — a tick from a state differing only in the Aux buffer
produces the same Sync/tick outcome with that Aux buffer passed through —
and every `Update` invocation receives the freshly default-constructed Aux
state: replacing `Update` by one that ignores the Aux argument it is
handed and reads the default instead does not change the tick at all. -/
theorem tick_aux_buffer_inert_and_update_gets_default_aux {ι σ ω : Type}
    (P : SimDef ι σ ω) (s : OrchState ι σ ω) (b : NSimBuffer ω) :
    tickCore P { s with aux := b }
      = ({ (tickCore P s).1 with aux := b }, (tickCore P s).2.1, (tickCore P s).2.2)
    ∧ tickCore (withAuxAlwaysDefault P) s = tickCore P s := by
  constructor
  · have hI : ({ s with aux := b } : OrchState ι σ ω).input = s.input := rfl
    have hS : ({ s with aux := b } : OrchState ι σ ω).sync = s.sync := rfl
    have hT : ({ s with aux := b } : OrchState ι σ ω).tickInfo = s.tickInfo := rfl
    have hfuel :
        (({ s with aux := b } : OrchState ι σ ω).tickInfo.maxAllowedInputKeyframe
          - ({ s with aux := b } : OrchState ι σ ω).tickInfo.lastProcessedInputKeyframe).toNat
        = (s.tickInfo.maxAllowedInputKeyframe
            - s.tickInfo.lastProcessedInputKeyframe).toNat := rfl
    have hrec : recoveredState P { s with aux := b }
        = { recoveredState P s with aux := b } := rfl
    have hwarn :
        decide (({ s with aux := b } : OrchState ι σ ω).tickInfo.lastProcessedInputKeyframe ≠ 0)
        = decide (s.tickInfo.lastProcessedInputKeyframe ≠ 0) := rfl
    rcases tickCore_cases P { s with aux := b }
      with ⟨h', heq'⟩ | ⟨h', h2', heq'⟩ | ⟨h', h2', heq'⟩
    · rw [hI, hS] at h'
      rcases tickCore_cases P s with ⟨_, heq⟩ | ⟨h, _, _⟩ | ⟨h, _, _⟩
      · rw [heq', heq]
      · exact absurd h h'
      · exact absurd h h'
    · rw [hI, hS] at h'
      rw [hS, hT] at h2'
      rcases tickCore_cases P s with ⟨h, _⟩ | ⟨_, _, heq⟩ | ⟨_, h2, _⟩
      · exact absurd h' h
      · rw [hfuel] at heq'
        rw [heq', heq, inputLoop_aux_transparent P _ s b]
      · exact absurd h2' h2
    · rw [hI, hS] at h'
      rw [hS, hT] at h2'
      rcases tickCore_cases P s with ⟨h, _⟩ | ⟨_, h2, _⟩ | ⟨_, _, heq⟩
      · exact absurd h' h
      · exact absurd h2 h2'
      · rw [hrec, hfuel, hwarn] at heq'
        rw [heq', heq, inputLoop_aux_transparent P _ (recoveredState P s) b]
  · have hrecb : recoveredState (withAuxAlwaysDefault P) s = recoveredState P s := rfl
    rcases tickCore_cases (withAuxAlwaysDefault P) s
      with ⟨h', heq'⟩ | ⟨h', h2', heq'⟩ | ⟨h', h2', heq'⟩
    · rcases tickCore_cases P s with ⟨_, heq⟩ | ⟨h, _, _⟩ | ⟨h, _, _⟩
      · rw [heq', heq]
      · exact absurd h h'
      · exact absurd h h'
    · rcases tickCore_cases P s with ⟨h, _⟩ | ⟨_, _, heq⟩ | ⟨_, h2, _⟩
      · exact absurd h' h
      · rw [heq', heq, inputLoop_aux_always_default P _ s]
      · exact absurd h2' h2
    · rcases tickCore_cases P s with ⟨h, _⟩ | ⟨_, h2, _⟩ | ⟨_, _, heq⟩
      · exact absurd h' h
      · exact absurd h2 h2'
      · rw [heq', heq, hrecb, inputLoop_aux_always_default P _ (recoveredState P s)]

/-! ## The reachability invariant (claims C4, C7) -/

theorem getD_eq_some_getElem {α : Type} (l : List α) (n : Nat) (d : α) (h : n < l.length) :
    l[n]? = some (l.getD n d) := by
  simp [List.getD_eq_getElem?_getD, List.getElem?_eq_getElem h]

theorem syncAfter_take_succ {ι σ ω : Type} (P : SimDef ι σ ω) (hist : List ι)
    (n : Nat) (hn : n < hist.length) :
    syncAfter P (hist.take (n + 1))
      = P.update (P.frameDeltaTime (hist.getD n P.defaultInputCmd))
          (hist.getD n P.defaultInputCmd) (syncAfter P (hist.take n)) P.defaultAux := by
  rw [syncAfter, List.take_succ, getD_eq_some_getElem hist n P.defaultInputCmd hn]
  simp [syncAfter, List.foldl_append]

theorem sumFrameDelta_take_succ {ι σ ω : Type} (P : SimDef ι σ ω) (hist : List ι)
    (n : Nat) (hn : n < hist.length) :
    sumFrameDelta P (hist.take (n + 1))
      = sumFrameDelta P (hist.take n)
          + P.frameDeltaTime (hist.getD n P.defaultInputCmd) := by
  rw [sumFrameDelta, List.take_succ, getD_eq_some_getElem hist n P.defaultInputCmd hn]
  simp [sumFrameDelta]

/-- `InitializeForNetworkRole` establishes the invariant with an empty
history. -/
theorem reachInv_init {ι σ ω : Type} (P : SimDef ι σ ω) (a b c : Nat) :
    ReachInv P [] (initializeForNetworkRole P a b c) := by
  refine ⟨le_refl 0, le_refl 0, rfl, ?_, ?_, rfl, Or.inr ⟨rfl, rfl, rfl⟩⟩
  · intro k cmd hmem hk
    exfalso
    have hsub := List.take_subset _ _ hmem
    rcases List.mem_singleton.mp hsub with heq
    have : k = 0 := congrArg Prod.fst heq
    omega
  · intro k y hmem
    exact absurd hmem (List.not_mem_nil _)

/-- `ProduceInput` (appending a driver-produced command at the next input
keyframe) extends the invariant's history by that command. -/
theorem reachInv_produceInput {ι σ ω : Type} (P : SimDef ι σ ω) {hist : List ι}
    {s : OrchState ι σ ω} (hinv : ReachInv P hist s) (cmd : ι) :
    ReachInv P (hist ++ [cmd]) { s with input := s.input.writeNext cmd } := by
  obtain ⟨h1, h2, h3, h4, h5, h6, h7⟩ := hinv
  have hlen : (hist ++ [cmd]).length = hist.length + 1 := by simp
  refine ⟨h1, by simp; omega, ?_, ?_, ?_, ?_, h7⟩
  · show s.input.nextWrite + 1 = (hist ++ [cmd]).length + 1
    omega
  · intro k c hmem hk
    rcases NSimBuffer.mem_writeNext hmem with ⟨hknext, hc⟩ | hold
    · constructor
      · omega
      · have hidx : (k - 1).toNat = hist.length := by omega
        rw [hidx, hc]
        simp
    · obtain ⟨hb, hg⟩ := h4 k c hold hk
      refine ⟨by omega, ?_⟩
      rw [← hg]
      have hidx : (k - 1).toNat < hist.length := by omega
      have hidx2 : k.toNat - 1 < hist.length := by omega
      simp [List.getD_eq_getElem?_getD, List.getElem?_append_left, hidx2]
  · intro k y hmem
    obtain ⟨hk0, hkl, hy⟩ := h5 k y hmem
    refine ⟨hk0, hkl, ?_⟩
    rw [hy, List.take_append_of_le_length (by omega)]
  · show s.tickInfo.totalProcessedSimulationTime
      = sumFrameDelta P ((hist ++ [cmd]).take s.tickInfo.lastProcessedInputKeyframe.toNat)
    rw [List.take_append_of_le_length (by omega)]
    exact h6

/-- The budget/rate-limit setters leave the invariant untouched. -/
theorem reachInv_setters {ι σ ω : Type} (P : SimDef ι σ ω) {hist : List ι}
    {s : OrchState ι σ ω} (hinv : ReachInv P hist s) (t k : Int) :
    ReachInv P hist
        { s with tickInfo := { s.tickInfo with remainingAllowedSimulationTime := t } }
    ∧ ReachInv P hist
        { s with tickInfo := { s.tickInfo with maxAllowedInputKeyframe := k } } := by
  obtain ⟨h1, h2, h3, h4, h5, h6, h7⟩ := hinv
  exact ⟨⟨h1, h2, h3, h4, h5, h6, h7⟩, ⟨h1, h2, h3, h4, h5, h6, h7⟩⟩

theorem stepState_sync {ι σ ω : Type} (P : SimDef ι σ ω) (s : OrchState ι σ ω)
    (nextCmd : ι) (prevSyncState : σ) :
    (stepState P s nextCmd prevSyncState).sync
      = s.sync.writeNext
          (P.update (P.frameDeltaTime nextCmd) nextCmd prevSyncState P.defaultAux) := rfl

theorem stepState_total {ι σ ω : Type} (P : SimDef ι σ ω) (s : OrchState ι σ ω)
    (nextCmd : ι) (prevSyncState : σ) :
    (stepState P s nextCmd prevSyncState).tickInfo.totalProcessedSimulationTime
      = s.tickInfo.totalProcessedSimulationTime + P.frameDeltaTime nextCmd := rfl

/-- The input consumption loop preserves the reachability invariant and
keeps the Sync head aligned with `LastProcessedInputKeyframe`. -/
theorem inputLoop_preserves_inv {ι σ ω : Type} (P : SimDef ι σ ω) (hist : List ι) :
    ∀ (fuel : Nat) (s : OrchState ι σ ω), ReachInv P hist s →
      s.sync.getHeadKeyframe = s.tickInfo.lastProcessedInputKeyframe →
        ReachInv P hist (inputLoop P fuel s).1
        ∧ (inputLoop P fuel s).1.sync.getHeadKeyframe
            = (inputLoop P fuel s).1.tickInfo.lastProcessedInputKeyframe
  | 0, s, hinv, halign => ⟨hinv, halign⟩
  | fuel + 1, s, hinv, halign => by
    simp only [inputLoop]
    by_cases hmax :
        s.tickInfo.lastProcessedInputKeyframe + 1 > s.tickInfo.maxAllowedInputKeyframe
    · rw [if_pos hmax]
      exact ⟨hinv, halign⟩
    · rw [if_neg hmax]
      cases hfind :
          s.input.findElementByKeyframe (s.tickInfo.lastProcessedInputKeyframe + 1) with
      | none => exact ⟨hinv, halign⟩
      | some nextCmd =>
        simp only
        by_cases hbudget :
            P.frameDeltaTime nextCmd ≤ s.tickInfo.remainingAllowedSimulationTime
        · rw [if_pos hbudget]
          cases hprev :
              s.sync.findElementByKeyframe s.tickInfo.lastProcessedInputKeyframe with
          | none => exact ⟨hinv, halign⟩
          | some prevSyncState =>
            simp only
            have hlpk0 : 0 ≤ s.tickInfo.lastProcessedInputKeyframe := hinv.lpk_nonneg
            obtain ⟨hkle, hkval⟩ := hinv.input_mem _ _
              (NSimBuffer.mem_of_find hfind) (by omega)
            have hidx : (s.tickInfo.lastProcessedInputKeyframe + 1 - 1).toNat
                = s.tickInfo.lastProcessedInputKeyframe.toNat := by omega
            rw [hidx] at hkval
            have hlt : s.tickInfo.lastProcessedInputKeyframe.toNat < hist.length := by
              omega
            have hsyncv := (hinv.sync_mem _ _ (NSimBuffer.mem_of_find hprev)).2.2
            have hnext : s.sync.nextWrite = s.tickInfo.lastProcessedInputKeyframe + 1 := by
              have hh : s.sync.getHeadKeyframe = s.sync.nextWrite - 1 := rfl
              omega
            have hstepinv : ReachInv P hist (stepState P s nextCmd prevSyncState) := by
              refine ⟨?_, ?_, ?_, ?_, ?_, ?_, ?_⟩
              · rw [stepState_lpk]
                omega
              · rw [stepState_lpk]
                omega
              · rw [stepState_input]
                exact hinv.input_next
              · rw [stepState_input]
                exact hinv.input_mem
              · intro k y hmem
                rw [stepState_sync] at hmem
                rw [stepState_lpk]
                rcases NSimBuffer.mem_writeNext hmem with ⟨hk, hy⟩ | hold
                · refine ⟨by omega, by omega, ?_⟩
                  have hkn : k.toNat = s.tickInfo.lastProcessedInputKeyframe.toNat + 1 := by
                    omega
                  rw [hy, hkn, syncAfter_take_succ P hist _ hlt, hkval, ← hsyncv]
                · obtain ⟨ha, hb, hc⟩ := hinv.sync_mem k y hold
                  exact ⟨ha, by omega, hc⟩
              · rw [stepState_total, stepState_lpk]
                have hkn : (s.tickInfo.lastProcessedInputKeyframe + 1).toNat
                    = s.tickInfo.lastProcessedInputKeyframe.toNat + 1 := by omega
                rw [hkn, sumFrameDelta_take_succ P hist _ hlt, hkval, hinv.total_eq]
              · refine Or.inl ?_
                rw [stepState_lpk]
                have hh : (stepState P s nextCmd prevSyncState).sync.getHeadKeyframe
                    = s.sync.nextWrite := by
                  rw [stepState_sync]
                  exact NSimBuffer.getHeadKeyframe_writeNext _ _
                omega
            have hstepalign : (stepState P s nextCmd prevSyncState).sync.getHeadKeyframe
                = (stepState P s nextCmd prevSyncState).tickInfo.lastProcessedInputKeyframe := by
              rw [stepState_lpk]
              have hh : (stepState P s nextCmd prevSyncState).sync.getHeadKeyframe
                  = s.sync.nextWrite := by
                rw [stepState_sync]
                exact NSimBuffer.getHeadKeyframe_writeNext _ _
              omega
            exact inputLoop_preserves_inv P hist fuel
              (stepState P s nextCmd prevSyncState) hstepinv hstepalign
        · rw [if_neg hbudget]
          exact ⟨hinv, halign⟩

theorem recoveredState_sync {ι σ ω : Type} (P : SimDef ι σ ω) (s : OrchState ι σ ω) :
    (recoveredState P s).sync
      = (s.sync.resetNextHeadKeyframe s.tickInfo.lastProcessedInputKeyframe).writeNext
          P.initSyncState := rfl

/-- The `Tick` core preserves the reachability invariant. -/
theorem tickCore_preserves_inv {ι σ ω : Type} (P : SimDef ι σ ω) (hist : List ι)
    {s : OrchState ι σ ω} (hinv : ReachInv P hist s) :
    ReachInv P hist (tickCore P s).1 := by
  rcases tickCore_cases P s with ⟨_, heq⟩ | ⟨_, h2, heq⟩ | ⟨_, h2, heq⟩
  · rw [heq]
    exact hinv
  · rw [heq]
    exact (inputLoop_preserves_inv P hist _ s hinv h2).1
  · rw [heq]
    rcases hinv.sync_head with h | ⟨hw0, helems, hlpk⟩
    · exact absurd h h2
    · have hrecinv : ReachInv P hist (recoveredState P s) := by
        refine ⟨?_, ?_, ?_, ?_, ?_, ?_, ?_⟩
        · rw [recoveredState_lpk]
          exact hinv.lpk_nonneg
        · rw [recoveredState_lpk]
          exact hinv.lpk_le
        · rw [recoveredState_input]
          exact hinv.input_next
        · rw [recoveredState_input]
          exact hinv.input_mem
        · intro k y hmem
          rw [recoveredState_sync] at hmem
          rw [recoveredState_lpk]
          rcases NSimBuffer.mem_writeNext hmem with ⟨hk, hy⟩ | hold
          · have hk0 : k = 0 := by
              have hr : (s.sync.resetNextHeadKeyframe
                  s.tickInfo.lastProcessedInputKeyframe).nextWrite
                  = s.tickInfo.lastProcessedInputKeyframe := rfl
              omega
            refine ⟨by omega, by omega, ?_⟩
            rw [hy, hk0]
            rfl
          · obtain ⟨hmem2, _⟩ := NSimBuffer.mem_reset hold
            rw [helems] at hmem2
            exact absurd hmem2 (List.not_mem_nil _)
        · rw [recoveredState_total, recoveredState_lpk]
          exact hinv.total_eq
        · refine Or.inl ?_
          rw [recoveredState_sync_head, recoveredState_lpk]
      have halign : (recoveredState P s).sync.getHeadKeyframe
          = (recoveredState P s).tickInfo.lastProcessedInputKeyframe := by
        rw [recoveredState_sync_head, recoveredState_lpk]
      exact (inputLoop_preserves_inv P hist _ _ hrecinv halign).1

/-- Running any sequence of tick-path operations preserves the invariant,
extending the history by the produced commands. -/
theorem runSimOps_inv {ι σ ω : Type} (P : SimDef ι σ ω) :
    ∀ (ops : List (SimOp ι)) (s : OrchState ι σ ω) (hist : List ι), ReachInv P hist s →
      ReachInv P (hist ++ histInputs ops) (runSimOps P s ops)
  | [], s, hist, hinv => by
    simpa [runSimOps, histInputs] using hinv
  | op :: ops, s, hist, hinv => by
    cases op with
    | produceInput cmd =>
      have hl : hist ++ histInputs (SimOp.produceInput cmd :: ops)
          = (hist ++ [cmd]) ++ histInputs ops := by
        simp [histInputs]
      rw [hl]
      exact runSimOps_inv P ops _ _ (reachInv_produceInput P hinv cmd)
    | setRemainingAllowedSimulationTime t =>
      have hl : hist ++ histInputs (SimOp.setRemainingAllowedSimulationTime t :: ops)
          = hist ++ histInputs ops := by
        simp [histInputs]
      rw [hl]
      exact runSimOps_inv P ops _ _ (reachInv_setters P hinv t 0).1
    | setMaxAllowedInputKeyframe k =>
      have hl : hist ++ histInputs (SimOp.setMaxAllowedInputKeyframe k :: ops)
          = hist ++ histInputs ops := by
        simp [histInputs]
      rw [hl]
      exact runSimOps_inv P ops _ _ (reachInv_setters P hinv 0 k).2
    | tick =>
      have hl : hist ++ histInputs (SimOp.tick :: ops) = hist ++ histInputs ops := by
        simp [histInputs]
      rw [hl]
      exact runSimOps_inv P ops _ _ (tickCore_preserves_inv P hist hinv)

/-- Claim C7: after any sequence of tick-path operations on an initialized
orchestrator, `TotalProcessedSimulationTime` equals the sum of the frame
delta times of the input commands at keyframes `1..LastProcessedInputKeyframe`
(the first `LastProcessedInputKeyframe` commands of the produced-input
history), and that keyframe stays within the history. -/
theorem total_processed_time_is_sum_of_consumed_deltas {ι σ ω : Type}
    (P : SimDef ι σ ω) (a b c : Nat) (ops : List (SimOp ι)) :
    0 ≤ (runSimOps P (initializeForNetworkRole P a b c) ops).tickInfo.lastProcessedInputKeyframe
    ∧ (runSimOps P (initializeForNetworkRole P a b c) ops).tickInfo.lastProcessedInputKeyframe ≤ (histInputs ops).length
    ∧ (runSimOps P (initializeForNetworkRole P a b c) ops).tickInfo.totalProcessedSimulationTime
        = sumFrameDelta P ((histInputs ops).take
            (runSimOps P (initializeForNetworkRole P a b c) ops).tickInfo.lastProcessedInputKeyframe.toNat) := by
  have h := runSimOps_inv P ops (initializeForNetworkRole P a b c) []
    (reachInv_init P a b c)
  rw [List.nil_append] at h
  exact ⟨h.lpk_nonneg, h.lpk_le, h.total_eq⟩

/-- Claim C4: determinism.  Two independent runs (any buffer capacities,
any interleaving of budget refills, rate limits and ticks) that produce
identical input-command sequences agree on every Sync keyframe both still
retain — each equals the deterministic fold of `Update` over the command
prefix, so the Sync sequences are identical. -/
theorem runs_with_equal_inputs_have_equal_sync {ι σ ω : Type} (P : SimDef ι σ ω)
    (a b c a2 b2 c2 : Nat) (ops1 ops2 : List (SimOp ι))
    (hhist : histInputs ops1 = histInputs ops2) (k : Int) (y1 y2 : σ)
    (h1 : (runSimOps P (initializeForNetworkRole P a b c) ops1).sync.findElementByKeyframe k = some y1)
    (h2 : (runSimOps P (initializeForNetworkRole P a2 b2 c2) ops2).sync.findElementByKeyframe k = some y2) :
    y1 = y2 := by
  have hinv1 := runSimOps_inv P ops1 (initializeForNetworkRole P a b c) []
    (reachInv_init P a b c)
  have hinv2 := runSimOps_inv P ops2 (initializeForNetworkRole P a2 b2 c2) []
    (reachInv_init P a2 b2 c2)
  rw [List.nil_append] at hinv1 hinv2
  have hv1 := (hinv1.sync_mem k y1 (NSimBuffer.mem_of_find h1)).2.2
  have hv2 := (hinv2.sync_mem k y2 (NSimBuffer.mem_of_find h2)).2.2
  rw [hv1, hv2, hhist]

/-- Witness for `runs_with_equal_inputs_have_equal_sync`: schedules
`schedA` (one tick) and `schedB` (two ticks, different budgets) feed the
same three commands; Sync keyframe 2 agrees. -/
theorem runs_with_equal_inputs_have_equal_sync_witness :
    histInputs schedA = histInputs schedB
    ∧ (runSimOps intSim (initializeForNetworkRole intSim 8 8 8) schedA).sync.findElementByKeyframe 2 = some 107
    ∧ (runSimOps intSim (initializeForNetworkRole intSim 8 8 8) schedB).sync.findElementByKeyframe 2 = some 107
    ∧ (107 : Int) = 107 :=
  ⟨by decide, by decide, by decide,
    runs_with_equal_inputs_have_equal_sync intSim 8 8 8 8 8 8 schedA schedB
      (by decide) 2 107 107 (by decide) (by decide)⟩

end NetSim
